import Mathlib

/-!
Verification of the comment-block parsing engine of `openscad_docsgen`
(`openscad_docsgen/parser.py`), as a shallow embedding in Lean 4.

Modelling conventions:
* A source line is a `List Char` (`Str`).  Per the engine's interface the
  caller feeds the engine lines "already split by record", so lines carry no
  terminating newline; on such lines the Python regular expressions and
  string operations used by the parser coincide with the models below.
* Python `dict`s are modelled as association lists where assignment to an
  existing key replaces the value in place (preserving insertion order) and
  assignment to a fresh key appends, matching Python dict semantics.
* The object graph of block nodes (`blocks.py`, whose source is not part of
  the parser file) is modelled from the spec as a flat store of nodes with
  parent references: every constructed block is appended to `nodes` and its
  id is its index; `parentId` is the non-owning back-reference.
-/

/-! ## Basic string utilities (Python semantics) -/

abbrev Str := List Char

def sl (s : String) : Str := s.toList

/-- Python `str.isspace` characters relevant to `strip`/`lstrip`/`rstrip`. -/
def pyIsSpace (c : Char) : Bool :=
  c = ' ' || c = '\t' || c = '\n' || c = '\r' || c = '\x0b' || c = '\x0c'

/-- Python `str.lstrip()`. -/
def lstripL (s : Str) : Str := s.dropWhile pyIsSpace

/-- Python `str.rstrip()`. -/
def rstripL (s : Str) : Str := (s.reverse.dropWhile pyIsSpace).reverse

/-- Python `str.strip()`. -/
def stripL (s : Str) : Str := rstripL (lstripL s)

/-- `n` spaces, as used in `"//" + (" " * indent)`. -/
def spacesL : Nat → Str
  | 0 => []
  | n + 1 => ' ' :: spacesL n

/-- Auxiliary scanner for Python `str.split(sep)` with a non-empty separator:
leftmost non-overlapping occurrences; fuelled to stay structural. -/
def splitSepAux (sep : Str) : Nat → Str → Str → List Str
  | 0, cur, s => [cur.reverse ++ s]
  | _ + 1, cur, [] => [cur.reverse]
  | fuel + 1, cur, c :: rest =>
    if sep.isPrefixOf (c :: rest) then
      cur.reverse :: splitSepAux sep fuel [] ((c :: rest).drop sep.length)
    else
      splitSepAux sep fuel (c :: cur) rest

/-- Python `str.split(sep)` for a non-empty separator. -/
def splitSep (sep s : Str) : List Str := splitSepAux sep (s.length + 1) [] s

/-- Python `str.split(sep, 1)` on a single-character separator: `some (before,
after)` at the first occurrence, `none` when the separator is absent
(mirroring the `"=" in part` test guarding the call). -/
def splitOnce (sep : Char) : Str → Option (Str × Str)
  | [] => none
  | c :: rest =>
    if c = sep then some ([], rest)
    else (splitOnce sep rest).map (fun p => (c :: p.1, p.2))

/-- Python substring test `needle in haystack`. -/
def containsSub (needle : Str) : Str → Bool
  | [] => needle.isEmpty
  | c :: rest => needle.isPrefixOf (c :: rest) || containsSub needle rest

/-- Python dict assignment `d[k] = v`: replace in place, else append. -/
def dictInsert {α : Type} (d : List (Str × α)) (k : Str) (v : α) : List (Str × α) :=
  match d with
  | [] => [(k, v)]
  | (k', v') :: rest => if k' = k then (k, v) :: rest else (k', v') :: dictInsert rest k v

/-- Python dict lookup / membership (keys are unique by construction). -/
def lookupD {α : Type} (d : List (Str × α)) (k : Str) : Option α :=
  match d with
  | [] => none
  | (k', v) :: rest => if k' = k then some v else lookupD rest k

/-- Decimal rendering of a line number, as Python `"{}".format(n)`. -/
def natStr (n : Nat) : Str := Nat.toDigits 10 n

/-! ## HeaderMatcher

The regular expression at `parser.py:28`:

  `^// ([A-Z][A-Za-z0-9_&-]*( ?[A-Z][A-Za-z0-9_&-]*)?)(\([^)]*\))?:( .*)?$`

combined with the group post-processing of `_parse_block` (`parser.py:228-230`):
`title = group(1)`, `meta = group(3)[1:-1] if group(3) else ""`,
`subtitle = group(4).strip() if group(4) else ""`.

The regex is deterministic on its input: every alternative the backtracking
engine would try after a greedy sub-match fails immediately, because the
characters that may follow each greedy run (`' '`, `'('`, `':'`, `')'`) are
excluded from the corresponding character classes.  The functions below
implement that deterministic reading directly. -/

def isUpperChar (c : Char) : Bool := 'A' ≤ c && c ≤ 'Z'

/-- The title word character class `[A-Za-z0-9_&-]`. -/
def isWordChar (c : Char) : Bool :=
  isUpperChar c || ('a' ≤ c && c ≤ 'z') || ('0' ≤ c && c ≤ '9') ||
    c = '_' || c = '&' || c = '-'

/-- The optional second title word `( ?[A-Z][A-Za-z0-9_&-]*)?`: `some` when
the group participates in the match.  The space-less variant of the group is
unreachable, because a directly following capital letter is a word character
and is consumed by the preceding greedy run. -/
def secondWord (w1 r1 : Str) : Option (Str × Str) :=
  match r1 with
  | [] => none
  | a :: t =>
    if a = ' ' then
      match t with
      | [] => none
      | b :: r2 =>
        if isUpperChar b then
          some (w1 ++ ' ' :: b :: r2.takeWhile isWordChar, r2.dropWhile isWordChar)
        else none
    else none

/-- Group 1 of the pattern: one or two capitalized words.  Returns the title
and the unconsumed remainder. -/
def matchTitle : Str → Option (Str × Str)
  | [] => none
  | c :: rest =>
    if isUpperChar c then
      let w1 := c :: rest.takeWhile isWordChar
      let r1 := rest.dropWhile isWordChar
      match secondWord w1 r1 with
      | some res => some res
      | none => some (w1, r1)
    else none

/-- Group 3 of the pattern, `(\([^)]*\))?`, already stripped of its
parentheses: `some (inner, rest)` on success, `none` when an opening
parenthesis is never closed (in which case the whole pattern fails, since the
mandatory `':'` cannot match the `'('`).  When the run `[^)]*` stops before a
non-empty remainder, that remainder necessarily starts with `')'`. -/
def matchMeta : Str → Option (Str × Str)
  | [] => some ([], [])
  | c :: rest =>
    if c = '(' then
      match rest.dropWhile (fun x => x ≠ ')') with
      | [] => none
      | _ :: r => some (rest.takeWhile (fun x => x ≠ ')'), r)
    else some ([], c :: rest)

/-- The tail of the pattern after the colon, `( .*)?$`, with the subtitle
post-processing applied. -/
def mhSub (title meta : Str) : Str → Option (Str × Str × Str)
  | [] => some (title, meta, [])
  | c5 :: sub => if c5 = ' ' then some (title, meta, stripL (' ' :: sub)) else none

/-- The mandatory colon after title and optional metadata. -/
def mhColon (title meta : Str) : Str → Option (Str × Str × Str)
  | [] => none
  | c4 :: r3 => if c4 = ':' then mhSub title meta r3 else none

def mhAfterTitle (title r1 : Str) : Option (Str × Str × Str) :=
  (matchMeta r1).bind (fun q => mhColon title q.1 q.2)

/-- The pattern after the `"// "` comment prefix. -/
def mhRest (rest : Str) : Option (Str × Str × Str) :=
  (matchTitle rest).bind (fun p => mhAfterTitle p.1 p.2)

def mh2 : Str → Option (Str × Str × Str)
  | [] => none
  | c3 :: rest => if c3 = ' ' then mhRest rest else none

def mh1 : Str → Option (Str × Str × Str)
  | [] => none
  | c2 :: t2 => if c2 = '/' then mh2 t2 else none

/-- The full header matcher: `None` when the line is not a header, otherwise
the `(title, meta, subtitle)` triple exactly as `_parse_block` computes it. -/
def matchHeader : Str → Option (Str × Str × Str)
  | [] => none
  | c1 :: t1 => if c1 = '/' then mh1 t1 else none

/-! ### The header grammar, stated declaratively from the spec

"a comment-prefix marker, then a title composed of one or two capitalized
words (letters, digits, `_`, `&`, `-`, with required leading capital on each
word), optionally followed by a parenthesized metadata string, followed by a
colon, followed by an optional subtitle (rest of line after the colon,
trimmed)". -/

def IsWordStr (w : Str) : Prop :=
  ∃ c cs, w = c :: cs ∧ isUpperChar c = true ∧ ∀ x ∈ cs, isWordChar x = true

def IsTitleStr (t : Str) : Prop :=
  IsWordStr t ∨ ∃ w1 w2, t = w1 ++ ' ' :: w2 ∧ IsWordStr w1 ∧ IsWordStr w2

/-- The optional parenthesized metadata part: `mp` is the raw text occupied in
the line, `m` the extracted metadata. -/
def MetaPartStr (mp m : Str) : Prop :=
  (mp = [] ∧ m = []) ∨ (mp = '(' :: m ++ [')'] ∧ ∀ c ∈ m, c ≠ ')')

/-- The optional subtitle part after the colon: empty, or a space followed by
free text; `s` is its trimmed content. -/
def SubPartStr (sp s : Str) : Prop :=
  (sp = [] ∨ ∃ raw, sp = ' ' :: raw) ∧ s = stripL sp

def HeaderGrammar (line t m s : Str) : Prop :=
  ∃ mp sp, line = '/' :: '/' :: ' ' :: (t ++ mp ++ ':' :: sp) ∧
    IsTitleStr t ∧ MetaPartStr mp m ∧ SubPartStr sp s

/-! ## BodyExtractor (`parser.py:231-248`)

The loop consuming body lines after a header.  The first consumed line must
start with `"//"` plus (at least) two spaces and fixes the indent width as
the length of its leading whitespace after the `"//"`; each further line must
start with `"//"` plus that many spaces.  A line failing that test but still
starting with `"//  "` raises `DocsGenException` (the "under-indented" error).
On the first iteration the two tests coincide, so the error can never be
raised there.  Each consumed line is taken after `line[2:][indent:]` and
right-stripped. -/

structure DocsGenException where
  block : Str
  msg : Str
deriving DecidableEq

/-- Modelled from the spec: `str(e)` for `DocsGenException(block, message)`
(defined in the repository's `blocks` module, not part of the parser file)
renders the message followed by the offending block title. -/
def excStr (e : DocsGenException) : Str :=
  e.msg ++ [' ', '"'] ++ e.block ++ ['"']

def underIndentMsg : Str :=
  sl "Body line has less indentation than first line, while declaring block:"

/-- Prepending one normalized body line to an extraction result. -/
def exCons (x : Str) : Except DocsGenException (List Str × Nat) →
    Except DocsGenException (List Str × Nat)
  | .ok (b, c) => .ok (x :: b, c + 1)
  | .error e => .error e

/-- The body loop after the first line, with the indent width fixed.  Returns
the normalized body lines and the number of lines consumed. -/
def extractAux (ti : Str) (indent : Nat) : List Str → Except DocsGenException (List Str × Nat)
  | [] => .ok ([], 0)
  | l :: rest =>
    if (['/', '/'] ++ spacesL indent).isPrefixOf l then
      exCons (rstripL ((l.drop 2).drop indent)) (extractAux ti indent rest)
    else if (['/', '/', ' ', ' ']).isPrefixOf l then
      .error ⟨ti, underIndentMsg⟩
    else
      .ok ([], 0)

/-- Prepending the first body line, converting the tail's consumed count into
the index of the first unconsumed line. -/
def exFirst (x : Str) (i : Nat) : Except DocsGenException (List Str × Nat) →
    Except DocsGenException (List Str × Nat)
  | .ok (b, c) => .ok (x :: b, i + 1 + c)
  | .error e => .error e

/-- Body extraction over the suffix of lines after the header. -/
def extractBodyAux (ti : Str) (i : Nat) : List Str → Except DocsGenException (List Str × Nat)
  | [] => .ok ([], i)
  | l :: rest =>
    if (['/', '/', ' ', ' ']).isPrefixOf l then
      let content := l.drop 2
      let d := (content.takeWhile pyIsSpace).length
      exFirst (rstripL (content.drop d)) i (extractAux ti d rest)
    else
      .ok ([], i)

/-- Body extraction starting at line index `i` (the line after the header):
returns the normalized body and the index of the first unconsumed line, or
the uncaught under-indentation error. -/
def extractBody (ti : Str) (lines : List Str) (i : Nat) :
    Except DocsGenException (List Str × Nat) :=
  extractBodyAux ti i (lines.drop i)

/-- Re-indentation of one consumed body line by `n` extra spaces after the
comment prefix. -/
def addIndent (n : Nat) (l : Str) : Str := ['/', '/'] ++ spacesL n ++ l.drop 2

/-! ## Data model

The node store.  Block objects of `blocks.py` (whose source is not part of
the parser file) are modelled from the spec's Node description: `kind`,
`title`, `subtitle`, `body`, `origin`, parent back-reference, header meta,
plus the kind-specific attributes (`aliases`/`deprecated` for Items, table
header sets, and the File attributes `summary`/`group`/`commonCode`/
`footnotes`). -/

structure Origin where
  file : Str
  line : Nat
deriving DecidableEq

inductive BlockKind
  | File | Section | Subsection | Item | Includes
  | Generic | Label | Text | NumberedList | BulletList
  | Table | Example | Figure | Topics | SeeAlso
deriving DecidableEq

structure Node where
  kind : BlockKind
  title : Str
  subtitle : Str
  body : List Str
  origin : Origin
  parentId : Option Nat
  meta : Str
  headerSets : Option (List (List Str))
  aliases : List Str
  deprecated : Bool
  summary : Str
  group : Str
  commonCode : List Str
  footnotes : List (List Str)
deriving DecidableEq

def mkNode (kind : BlockKind) (title subtitle : Str) (body : List Str)
    (origin : Origin) (parentId : Option Nat) (meta : Str)
    (headerSets : Option (List (List Str))) : Node :=
  ⟨kind, title, subtitle, body, origin, parentId, meta, headerSets,
    [], false, [], [], [], []⟩

/-- Callbacks installable in the block-type registry (`parser.py:135-142`). -/
inductive Cb
  | status
  | alias
deriving DecidableEq

/-- One registry entry: `(parenttype, nodetype, extras, callback)`
(`parser.py:113-123`).  The only parent type ever used is `ItemBlock`, so the
constraint is a Boolean. -/
structure HeaderDef where
  parentItem : Bool
  cls : BlockKind
  data : Option (List (List Str))
  cb : Option Cb
deriving DecidableEq

inductive Severity
  | warning
  | fail
deriving DecidableEq

/-- Modelled from the spec: an ErrorLog entry `(file, line, severity,
message)`; the log itself (the repository's `errorlog` module, not part of
the parser file) is an append-only list. -/
structure LogEntry where
  file : Str
  line : Nat
  msg : Str
  sev : Severity
deriving DecidableEq

/-- The parser state carried across `_parse_block` steps: the node store, the
file-block list, the current context pointers, the name index, the registry,
and the error log. -/
structure PState where
  nodes : List Node
  fileBlocks : List Nat
  currFile : Option Nat
  currSection : Option Nat
  currSubsection : Option Nat
  currItem : Option Nat
  currParent : Option Nat
  itemsByName : List (Str × Nat)
  headerDefs : List (Str × HeaderDef)
  errlog : List LogEntry
  strict : Bool
deriving DecidableEq

def nodeAt (st : PState) (i : Nat) : Option Node := st.nodes[i]?

def kindAt (st : PState) (i : Nat) : Option BlockKind := (nodeAt st i).map Node.kind

/-- Append a freshly constructed block to the store, returning its id. -/
def addNode (st : PState) (n : Node) : PState × Nat :=
  ({ st with nodes := st.nodes ++ [n] }, st.nodes.length)

def updateNode (st : PState) (i : Nat) (f : Node → Node) : PState :=
  match st.nodes[i]? with
  | some n => { st with nodes := st.nodes.set i (f n) }
  | none => st

/-- `errorlog.add_entry(origin.file, origin.line, str(e), ErrorLog.FAIL)`. -/
def addEntry (st : PState) (origin : Origin) (e : DocsGenException) : PState :=
  { st with errlog := st.errlog ++ [⟨origin.file, origin.line, excStr e, Severity.fail⟩] }

/-- Number of Item nodes carrying a given subtitle. -/
def countItemsL (s : Str) : List Node → Nat
  | [] => 0
  | n :: rest =>
    (if n.kind = BlockKind.Item ∧ n.subtitle = s then 1 else 0) + countItemsL s rest

def countItems (st : PState) (s : Str) : Nat := countItemsL s st.nodes

/-! ## BlockTypeRegistry -/

/-- Python exceptions escaping the dispatch: `DocsGenException` (caught by
`_parse_block`'s handler) or an `AttributeError`-class failure (uncaught). -/
inductive PyErr
  | docsgen (e : DocsGenException)
  | typeErr
deriving DecidableEq

/-- A parsed `key` / `key=value` option; a bare key maps to the flag value
`1`, which is not a string. -/
inductive MetaVal
  | flag
  | str (v : Str)
deriving DecidableEq

/-- `_parse_meta_dict` (`parser.py:172-180`). -/
def parseMetaDict (meta : Str) : List (Str × MetaVal) :=
  (splitSep (sl ";") meta).foldl
    (fun d part =>
      match splitOnce '=' part with
      | some (k, v) => dictInsert d k (.str v)
      | none => dictInsert d part .flag)
    []

/-- The header-set computation of the `Table` branch:
`[[x.strip() for x in hset.split("|")] for hset in meta["Headers"].split("||")]`. -/
def mkHdrSets (v : Str) : List (List Str) :=
  (splitSep (sl "||") v).map (fun hset => (splitSep (sl "|") hset).map stripL)

/-- `_define_blocktype` (`parser.py:182-211`).  `title0` is the raw block
subtitle; option keys are tested in the order of the `elif` chain.  A `Table`
whose `Headers` option is a bare flag hits Python's `1.split` attribute
failure, modelled as `typeErr`. -/
def defineBlocktype (defs : List (Str × HeaderDef)) (title0 meta : Str) :
    Except PyErr (List (Str × HeaderDef)) :=
  let title := stripL title0
  let md := parseMetaDict meta
  let pspec := (lookupD md (sl "ItemOnly")).isSome
  if (lookupD md (sl "NumList")).isSome then
    .ok (dictInsert defs title ⟨pspec, .NumberedList, none, none⟩)
  else if (lookupD md (sl "BulletList")).isSome then
    .ok (dictInsert defs title ⟨pspec, .BulletList, none, none⟩)
  else if (lookupD md (sl "Table")).isSome then
    match lookupD md (sl "Headers") with
    | none => .error (.docsgen ⟨sl "DefineHeader",
        sl "Table type is missing Header= option, while declaring block:"⟩)
    | some .flag => .error .typeErr
    | some (.str v) => .ok (dictInsert defs title ⟨pspec, .Table, some (mkHdrSets v), none⟩)
  else if (lookupD md (sl "Example")).isSome then
    .ok (dictInsert defs title ⟨pspec, .Example, none, none⟩)
  else if (lookupD md (sl "Figure")).isSome then
    .ok (dictInsert defs title ⟨pspec, .Figure, none, none⟩)
  else if (lookupD md (sl "Label")).isSome then
    .ok (dictInsert defs title ⟨pspec, .Label, none, none⟩)
  else if (lookupD md (sl "Text")).isSome then
    .ok (dictInsert defs title ⟨pspec, .Text, none, none⟩)
  else if (lookupD md (sl "Generic")).isSome then
    .ok (dictInsert defs title ⟨pspec, .Generic, none, none⟩)
  else
    .error (.docsgen ⟨sl "DefineHeader",
      sl "Could not parse target block type, while declaring block:"⟩)

/-! ## TreeBuilder / ParseStateMachine -/

def rcfileName : Str := sl ".openscad_docsgen_rc"

def rcOnlyMsg : Str := sl "Block disallowed outside of .openscad_docsgen_rc file:"

def noBodyMsg : Str := sl "Body not supported, while declaring block:"

def needSubtitleMsg : Str := sl "Must provide a subtitle when declaring block:"

def dupMsg (subtitle f : Str) (l : Nat) : Str :=
  sl "Previous declaration of `" ++ subtitle ++ sl "` at " ++ f ++ [':'] ++
    natStr l ++ sl ", Redeclared:"

/-- `_mkfilenode` (`parser.py:213-217`): create the placeholder
`FileBlock("LibFile", origin.file, [], origin)` if no file block is open. -/
def mkFileNode (st : PState) (origin : Origin) : PState :=
  if st.currFile.isSome then st
  else
    let p := addNode st (mkNode .File (sl "LibFile") origin.file [] origin none [] none)
    { p.1 with currFile := some p.2,
               currParent := some p.2,
               fileBlocks := p.1.fileBlocks ++ [p.2] }

/-- `_status_block_cb` (`parser.py:135-136`); a missing `curr_item` is an
uncaught attribute failure. -/
def runStatusCbAux (st : PState) (subtitle : Str) : Option Nat → PState × Option PyErr
  | none => (st, some .typeErr)
  | some i =>
    (updateNode st i (fun n => { n with deprecated := containsSub (sl "DEPRECATED") subtitle }),
      none)

def runStatusCb (st : PState) (subtitle : Str) : PState × Option PyErr :=
  runStatusCbAux st subtitle st.currItem

/-- `_alias_block_cb` (`parser.py:138-142`): split the subtitle on commas,
strip each name, extend the item's aliases and assign
`items_by_name[alias] = curr_item` for each. -/
def runAliasCbAux (st : PState) (subtitle : Str) : Option Nat → PState × Option PyErr
  | none => (st, some .typeErr)
  | some i =>
    let aliases := (splitSep (sl ",") subtitle).map stripL
    let st1 := updateNode st i (fun n => { n with aliases := n.aliases ++ aliases })
    ({ st1 with itemsByName := aliases.foldl (fun d a => dictInsert d a i) st1.itemsByName },
      none)

def runAliasCb (st : PState) (subtitle : Str) : PState × Option PyErr :=
  runAliasCbAux st subtitle st.currItem

def asciiUpper (c : Char) : Char :=
  if 'a' ≤ c ∧ c ≤ 'z' then Char.ofNat (c.toNat - 32) else c

def genDocsKnown : List Str :=
  [sl "FILES", sl "TOC", sl "INDEX", sl "TOPICS", sl "CHEAT", sl "CHEATSHEET", sl "SIDEBAR"]

/-- The `GenerateDocs` parts loop (`parser.py:308-324`), under default
command-line options (no docs types pre-selected): the first unknown part
raises. -/
def checkGenParts (title : Str) : List Str → Option DocsGenException
  | [] => none
  | p :: rest =>
    let orig := stripL p
    if orig.map asciiUpper ∈ genDocsKnown then checkGenParts title rest
    else some ⟨title, sl "Unknown type \"" ++ orig ++ sl "\", while declaring block:"⟩

/-- The `FileFootnotes` subtitle parsing (`parser.py:367-370`). -/
def footnotesOf (subtitle : Str) : List (List Str) :=
  (splitSep (sl ";") subtitle).map (fun part =>
    match splitOnce '=' (stripL part) with
    | some (a, b) => [stripL a, stripL b]
    | none => [stripL part])

/-- The `Figures` / `Examples` loops (`parser.py:380-389`): one node per body
line; the subtitle is blanked after the first. -/
def addFigsAux (kind : BlockKind) (ti : Str) (origin : Origin) (parent : Option Nat)
    (meta : Str) : PState → Str → List Str → PState
  | st, _, [] => st
  | st, sub, l :: rest =>
    addFigsAux kind ti origin parent meta
      (addNode st (mkNode kind ti sub [l] origin parent meta none)).1 [] rest

/-- The anonymous-Section auto-creation of the Item branch (`parser.py:404-405`). -/
def ensureSection (st1 : PState) (origin : Origin) : Option Nat → PState × Nat
  | some sec => (st1, sec)
  | none =>
    let p := addNode st1 (mkNode .Section (sl "Section") [] [] origin st1.currFile [] none)
    ({ p.1 with currSection := some p.2 }, p.2)

/-- The NameIndex check and Item creation (`parser.py:407-414`), dispatched on
the prior registration of the subtitle. -/
def processItemReg (st2 : PState) (secId : Nat) (title subtitle : Str) (body : List Str)
    (origin : Origin) : Option Nat → PState × Option PyErr
  | some pid =>
    let porig := ((nodeAt st2 pid).map Node.origin).getD ⟨[], 0⟩
    (st2, some (.docsgen ⟨title, dupMsg subtitle porig.file porig.line⟩))
  | none =>
    let p := addNode st2 (mkNode .Item title subtitle body origin (some secId) [] none)
    ({ p.1 with itemsByName := dictInsert p.1.itemsByName subtitle p.2,
                currItem := some p.2,
                currParent := some p.2 }, none)

/-- The duplicate-checking Item branch for
`Constant` / `Function` / `Module` / `Function&Module` (`parser.py:402-414`). -/
def processItemBlock (st0 : PState) (title subtitle : Str) (body : List Str)
    (origin : Origin) : PState × Option PyErr :=
  let st1 := mkFileNode st0 origin
  let secp := ensureSection st1 origin st1.currSection
  let st2 := { secp.1 with currParent := some secp.2 }
  processItemReg st2 secp.2 title subtitle body origin (lookupD st2.itemsByName subtitle)

/-- Whether the registry rule's parent constraint is satisfied
(`parser.py:392`): `isinstance(self.curr_parent, parcls)`. -/
def parentOkFor (st : PState) (hd : HeaderDef) : Bool :=
  !hd.parentItem ||
    (match st.currParent with
      | some p => kindAt st p = some BlockKind.Item
      | none => false)

/-- Running a registry entry's callback (`parser.py:399-400`). -/
def runCallback (st : PState) (subtitle : Str) : Option Cb → PState × Option PyErr
  | none => (st, none)
  | some Cb.status => runStatusCb st subtitle
  | some Cb.alias => runAliasCb st subtitle

/-- The registry-driven leaf branch (`parser.py:390-400`). -/
def processRegistry (st0 : PState) (parent : Option Nat) (title subtitle : Str)
    (body : List Str) (origin : Origin) (meta : Str) (hd : HeaderDef) :
    PState × Option PyErr :=
  if parentOkFor st0 hd then
    let st1 :=
      if hd.cls = .Generic ∨ hd.cls = .Label ∨ hd.cls = .Text ∨
          hd.cls = .NumberedList ∨ hd.cls = .BulletList then
        (addNode st0 (mkNode hd.cls title subtitle body origin parent [] none)).1
      else if hd.cls = .Table then
        (addNode st0 (mkNode .Table title subtitle body origin parent [] hd.data)).1
      else if hd.cls = .Figure ∨ hd.cls = .Example then
        (addNode st0 (mkNode hd.cls title subtitle body origin parent meta none)).1
      else st0
    runCallback st1 subtitle hd.cb
  else (st0, none)

/-- The branches checked after the registry lookup fails
(`parser.py:402-422`). -/
def processFallback (st0 : PState) (parent : Option Nat) (title subtitle : Str)
    (body : List Str) (origin : Origin) : PState × Option PyErr :=
  if title ∈ [sl "Constant", sl "Function", sl "Module", sl "Function&Module"] then
    processItemBlock st0 title subtitle body origin
  else if title = sl "Topics" then
    if st0.currItem.isSome then
      ((addNode st0 (mkNode .Topics title subtitle body origin parent [] none)).1, none)
    else (st0, none)
  else if title = sl "See Also" then
    if st0.currItem.isSome then
      ((addNode st0 (mkNode .SeeAlso title subtitle body origin parent [] none)).1, none)
    else (st0, none)
  else (st0, some (.docsgen ⟨title, sl "Unrecognized block:"⟩))

/-- Dispatch on the result of `title in self.header_defs` (`parser.py:390`). -/
def processLookup (st0 : PState) (parent : Option Nat) (title subtitle : Str)
    (body : List Str) (origin : Origin) (meta : Str) :
    Option HeaderDef → PState × Option PyErr
  | some hd => processRegistry st0 parent title subtitle body origin meta hd
  | none => processFallback st0 parent title subtitle body origin

/-- The dispatch of `_parse_block` (the `try` body, `parser.py:250-422`),
returning the state reached together with the exception raised there, if
any.  Python exceptions do not roll back earlier mutations, so the state is
returned in both cases.  The branches reserved to the configuration file
check their location and mutate only out-of-scope option/file-selection
state (`opts`, glob patterns), modelled as a no-op. -/
def processBlockCore (st0 : PState) (title subtitle : Str) (body : List Str)
    (origin : Origin) (meta : Str) : PState × Option PyErr :=
  let parent := st0.currParent
  if title = sl "DefineHeader" then
    match defineBlocktype st0.headerDefs subtitle meta with
    | .ok defs => ({ st0 with headerDefs := defs }, none)
    | .error e => (st0, some e)
  else if title = sl "IgnoreFiles" then
    if origin.file ≠ rcfileName then (st0, some (.docsgen ⟨title, rcOnlyMsg⟩)) else (st0, none)
  else if title = sl "PrioritizeFiles" then
    if origin.file ≠ rcfileName then (st0, some (.docsgen ⟨title, rcOnlyMsg⟩)) else (st0, none)
  else if title = sl "DocsDirectory" then
    if origin.file ≠ rcfileName then (st0, some (.docsgen ⟨title, rcOnlyMsg⟩))
    else if body ≠ [] then (st0, some (.docsgen ⟨title, noBodyMsg⟩))
    else (st0, none)
  else if title = sl "ProjectName" then
    if origin.file ≠ rcfileName then (st0, some (.docsgen ⟨title, rcOnlyMsg⟩))
    else if body ≠ [] then (st0, some (.docsgen ⟨title, noBodyMsg⟩))
    else (st0, none)
  else if title = sl "TargetProfile" then
    if origin.file ≠ rcfileName then (st0, some (.docsgen ⟨title, rcOnlyMsg⟩))
    else if body ≠ [] then (st0, some (.docsgen ⟨title, noBodyMsg⟩))
    else (st0, none)
  else if title = sl "GenerateDocs" then
    if origin.file ≠ rcfileName then (st0, some (.docsgen ⟨title, rcOnlyMsg⟩))
    else if body ≠ [] then (st0, some (.docsgen ⟨title, noBodyMsg⟩))
    else
      match checkGenParts title (splitSep (sl ",") subtitle) with
      | some e => (st0, some (.docsgen e))
      | none => (st0, none)
  else if title = sl "vim" ∨ title = sl "emacs" then (st0, none)
  else if title = sl "File" ∨ title = sl "LibFile" then
    if st0.currFile.isSome then
      (st0, some (.docsgen ⟨title, sl "File/Libfile block already specified, while declaring block:"⟩))
    else
      let p := addNode st0 (mkNode .File title subtitle body origin none [] none)
      ({ p.1 with currFile := some p.2,
                  currSection := none,
                  currSubsection := none,
                  currParent := some p.2,
                  fileBlocks := p.1.fileBlocks ++ [p.2] }, none)
  else if st0.currFile = none ∧ st0.strict then
    (st0, some (.docsgen ⟨title, sl "Must declare File or LibFile block before declaring block:"⟩))
  else if title = sl "Section" then
    let st1 := mkFileNode st0 origin
    let p := addNode st1 (mkNode .Section title subtitle body origin st1.currFile [] none)
    ({ p.1 with currSection := some p.2,
                currSubsection := none,
                currParent := some p.2 }, none)
  else if title = sl "Subsection" then
    match st0.currSection with
    | none => (st0, some (.docsgen ⟨title, sl "Must declare a Section before declaring block:"⟩))
    | some sec =>
      if subtitle = [] then (st0, some (.docsgen ⟨title, needSubtitleMsg⟩))
      else
        let p := addNode st0 (mkNode .Subsection title subtitle body origin (some sec) [] none)
        ({ p.1 with currSubsection := some p.2,
                    currParent := some p.2 }, none)
  else if title = sl "Includes" then
    let st1 := mkFileNode st0 origin
    ((addNode st1 (mkNode .Includes title subtitle body origin st1.currFile [] none)).1, none)
  else if title = sl "FileSummary" then
    if subtitle = [] then (st0, some (.docsgen ⟨title, needSubtitleMsg⟩))
    else
      let st1 := mkFileNode st0 origin
      (updateNode st1 (st1.currFile.getD 0) (fun n => { n with summary := stripL subtitle }), none)
  else if title = sl "FileGroup" then
    if subtitle = [] then (st0, some (.docsgen ⟨title, needSubtitleMsg⟩))
    else
      let st1 := mkFileNode st0 origin
      (updateNode st1 (st1.currFile.getD 0) (fun n => { n with group := stripL subtitle }), none)
  else if title = sl "FileFootnotes" then
    if subtitle = [] then (st0, some (.docsgen ⟨title, needSubtitleMsg⟩))
    else
      let st1 := mkFileNode st0 origin
      (updateNode st1 (st1.currFile.getD 0) (fun n => { n with footnotes := footnotesOf subtitle }), none)
  else if title = sl "CommonCode" then
    let st1 := mkFileNode st0 origin
    (updateNode st1 (st1.currFile.getD 0) (fun n => { n with commonCode := n.commonCode ++ body }), none)
  else if title = sl "Figure" then
    let st1 := mkFileNode st0 origin
    ((addNode st1 (mkNode .Figure title subtitle body origin parent meta none)).1, none)
  else if title = sl "Example" then
    if st0.currItem.isSome then
      ((addNode st0 (mkNode .Example title subtitle body origin parent meta none)).1, none)
    else (st0, none)
  else if title = sl "Figures" then
    let st1 := mkFileNode st0 origin
    (addFigsAux .Figure (sl "Figure") origin parent meta st1 subtitle body, none)
  else if title = sl "Examples" then
    if st0.currItem.isSome then
      (addFigsAux .Example (sl "Example") origin parent meta st0 subtitle body, none)
    else (st0, none)
  else
    processLookup st0 parent title subtitle body origin meta
      (lookupD st0.headerDefs title)

/-- Closing an open Item's scope: `curr_parent` reverts to the item's parent
and `curr_item` clears (`parser.py:147-149`, `154-156`, `424-427`). -/
def closeItem (st : PState) : PState :=
  match st.currItem with
  | some i => { st with currParent := (nodeAt st i).bind Node.parentId, currItem := none }
  | none => st

/-- `_skip_lines` (`parser.py:144-157`) over the suffix `lines.drop i`,
carrying the absolute index. -/
def skipAux (st : PState) : List Str → Nat → PState × Nat
  | [], i => (closeItem st, i)
  | l :: rest, i =>
    let st1 := if st.currItem.isSome ∧ ¬(['/', '/'].isPrefixOf l) then closeItem st else st
    if (matchHeader l).isSome then (st1, i)
    else skipAux st1 rest (i + 1)

def skipLines (st : PState) (lines : List Str) (i : Nat) : PState × Nat :=
  skipAux st (lines.drop i) i

/-- An exception escaping `_parse_block` uncaught: the under-indentation
`DocsGenException` raised before the `try` block, or an attribute failure. -/
inductive Uncaught
  | docsgen (e : DocsGenException)
  | attr
deriving DecidableEq

/-- Result of one `_parse_block` call: a normal return with the new line
index, or an uncaught exception (with the state as mutated so far). -/
inductive BlockRes
  | ok (st : PState) (next : Nat)
  | raised (st : PState) (e : Uncaught)
deriving DecidableEq

/-- The open-Item closing check after a successful dispatch
(`parser.py:424-427`). -/
def closeAfter (st : PState) (lines : List Str) (j : Nat) : PState :=
  if j ≥ lines.length ∨ ¬(['/', '/'].isPrefixOf (lines.getD j [])) then closeItem st
  else st

/-- The tail of `_parse_block` after the dispatch (`parser.py:424-433`): the
caught-exception handler, or the close-check and final skip. -/
def parseBlockFinish (lines : List Str) (origin : Origin) (j : Nat) :
    PState × Option PyErr → BlockRes
  | (st2, none) =>
    let q := skipLines (closeAfter st2 lines j) lines j
    .ok q.1 q.2
  | (st2, some (.docsgen e)) => .ok (addEntry st2 origin e) j
  | (st2, some .typeErr) => .raised st2 .attr

/-- `_parse_block` after body extraction: an under-indentation error raised
there escapes uncaught (`parser.py:240` sits before the `try`). -/
def parseBlockBody (st1 : PState) (lines : List Str) (srcFile : Str) (s : Nat)
    (title subtitle meta : Str) : Except DocsGenException (List Str × Nat) → BlockRes
  | .error e => .raised st1 (.docsgen e)
  | .ok (body, j) =>
    parseBlockFinish lines ⟨srcFile, s + 1⟩ j
      (processBlockCore st1 title subtitle body ⟨srcFile, s + 1⟩ meta)

/-- `_parse_block` after the header search, dispatched on the header match. -/
def parseBlockHdr (st1 : PState) (lines : List Str) (srcFile : Str) (s : Nat) :
    Option (Str × Str × Str) → BlockRes
  | none => .ok st1 s
  | some (title, meta, subtitle) =>
    parseBlockBody st1 lines srcFile s title subtitle meta (extractBody title lines (s + 1))

/-- `_parse_block` (`parser.py:219-433`). -/
def parseBlock (st : PState) (lines : List Str) (srcFile : Str) (i : Nat) : BlockRes :=
  let p := skipLines st lines i
  if p.2 ≥ lines.length then .ok p.1 p.2
  else parseBlockHdr p.1 lines srcFile p.2 (matchHeader (lines.getD p.2 []))

/-- The `parse_lines` loop (`parser.py:604-618`), fuelled (one unit of fuel
per `_parse_block` call; `lines.length + 1` units always suffice, see the
termination theorem).  `none` models non-termination and never occurs;
`some (.error _)` models an exception propagating uncaught out of
`parse_lines`. -/
def parseGoStep (go : PState → Nat → Option (Except (PState × Uncaught) PState)) :
    BlockRes → Option (Except (PState × Uncaught) PState)
  | .raised st' e => some (.error (st', e))
  | .ok st' j => go st' j

def parseGo (lines : List Str) (srcFile : Str) :
    Nat → PState → Nat → Option (Except (PState × Uncaught) PState)
  | 0, _, _ => none
  | fuel + 1, st, i =>
    if i ≥ lines.length then some (.ok st)
    else parseGoStep (parseGo lines srcFile fuel) (parseBlock st lines srcFile i)

def parseLines (st : PState) (lines : List Str) (srcFile : Str) :
    Option (Except (PState × Uncaught) PState) :=
  parseGo lines srcFile (lines.length + 1) st 0

/-! ## Initial state

`__init__` plus `_reset_header_defs` (`parser.py:32-56`, `112-133`): the
built-in registry entries, then the three built-in `DefineHeader` lines
parsed with source id "Defaults" (no `.openscad_docsgen_rc` present). -/

def argumentsHeaderSets : List (List Str) :=
  [[sl "^<abbr title=\"These args can be used by position or by name.\">By&nbsp;Position</abbr>",
    sl "What it does"],
   [sl "^<abbr title=\"These args must be used by name, ie: name=value\">By&nbsp;Name</abbr>",
    sl "What it does"]]

def builtinHeaderDefs : List (Str × HeaderDef) :=
  [(sl "Status", ⟨true, .Label, none, some .status⟩),
   (sl "Alias", ⟨true, .Label, none, some .alias⟩),
   (sl "Aliases", ⟨true, .Label, none, some .alias⟩),
   (sl "Arguments", ⟨true, .Table, some argumentsHeaderSets, none⟩)]

def defaultLines : List Str :=
  [sl "// DefineHeader(Text): Text",
   sl "// DefineHeader(Text;ItemOnly): Description",
   sl "// DefineHeader(BulletList;ItemOnly): Usage"]

def initState (strict : Bool) : PState :=
  ⟨[], [], none, none, none, none, none, [], builtinHeaderDefs, [], strict⟩

def startState (strict : Bool) : PState :=
  match parseLines (initState strict) defaultLines (sl "Defaults") with
  | some (.ok st) => st
  | _ => initState strict

/-! ## NameIndex enumeration -/

/-- Codepoint-lexicographic comparison, as Python compares strings. -/
def strLeB : Str → Str → Bool
  | [], _ => true
  | _ :: _, [] => false
  | a :: as, b :: bs =>
    if a.toNat < b.toNat then true
    else if b.toNat < a.toNat then false
    else strLeB as bs

def strLe (a b : Str) : Prop := strLeB a b = true

instance : DecidableRel strLe := fun a b => instDecidableEqBool (strLeB a b) true

/-- `get_indexed_names` (`parser.py:435-440`): `sorted(items_by_name.keys())`.
Python's `sorted` is a stable sort by `≤`; it is modelled by the stable
insertion sort. -/
def getIndexedNames (st : PState) : List Str :=
  List.insertionSort strLe (st.itemsByName.map Prod.fst)

def asciiLower (c : Char) : Char :=
  if 'A' ≤ c ∧ c ≤ 'Z' then Char.ofNat (c.toNat + 32) else c

/-- Case-insensitive comparison (the order the spec ascribes to
`all_names_sorted`). -/
def ciLeB (a b : Str) : Bool := strLeB (a.map asciiLower) (b.map asciiLower)

def ciSortedB : List Str → Bool
  | [] => true
  | [_] => true
  | a :: b :: rest => ciLeB a b && ciSortedB (b :: rest)

/-! ## Concrete units used as witnesses and counterexamples -/

/-- A unit whose second body line is under-indented relative to the first
(2 spaces versus 3 after the comment prefix). -/
def underIndentUnit : List Str :=
  [sl "// Function: foo()",
   sl "//   desc",
   sl "//  under"]

/-- A unit declaring a `Figure` while no Item is open. -/
def orphanFigureUnit : List Str :=
  [sl "// LibFile: foo.scad",
   sl "// Figure: fig"]

/-- A unit whose `Alias` block re-registers a name that already belongs to a
different Item. -/
def aliasClashUnit : List Str :=
  [sl "// Function: foo()",
   sl "x = 1;",
   sl "// Function: bar()",
   sl "// Alias: foo()"]

/-- A unit whose indexed names sort differently by codepoint and
case-insensitively. -/
def mixedCaseUnit : List Str :=
  [sl "// Function: B()",
   sl "x = 1;",
   sl "// Function: a()"]

/-- A unit opening with a `Section` and no `File`/`LibFile`. -/
def orphanSectionUnit : List Str :=
  [sl "// Section: Stuff"]

/-- A unit declaring the same Function subtitle twice. -/
def dupItemUnit : List Str :=
  [sl "// LibFile: foo.scad",
   sl "// Function: bar()",
   sl "//   Description",
   sl "x = 1;",
   sl "// Function: bar()"]

/-- Checks that a full parse aborted with the uncaught under-indentation
`DocsGenException` while the error log stayed empty: nothing was logged and
the scan did not continue. -/
def uncaughtUnderIndent (r : Option (Except (PState × Uncaught) PState)) : Bool :=
  match r with
  | some (.error (st, .docsgen e)) =>
    st.errlog.isEmpty && (e.block == sl "Function") && (e.msg == underIndentMsg)
  | _ => false

/-- The final state of a parse that terminated normally (used to inspect
concrete runs; never the fallback). -/
def finalState (r : Option (Except (PState × Uncaught) PState)) : PState :=
  match r with
  | some (.ok st) => st
  | some (.error (st, _)) => st
  | none => initState false

/-- Number of nodes of a given kind in the store. -/
def countKind (st : PState) (k : BlockKind) : Nat :=
  (st.nodes.filter (fun n => n.kind = k)).length

/-- Number of FAIL entries in the error log. -/
def countFails (st : PState) : Nat :=
  (st.errlog.filter (fun en => en.sev = Severity.fail)).length

/-- The new line index of a normal `_parse_block` return. -/
def resIndex : BlockRes → Option Nat
  | .ok _ j => some j
  | .raised _ _ => none

/-- A one-line unit, used to exercise single `_parse_block` steps. -/
def tinyUnit : List Str := [sl "// LibFile: x"]

/-- The state reached right after dispatching `// Function: foo()` on the
fresh default state: an open Item. -/
def openItemState : PState :=
  (processBlockCore (startState false) (sl "Function") (sl "foo()") [] ⟨sl "foo.scad", 1⟩ []).1

/-- The state reached right after dispatching `// Function: bar()` on the
fresh default state (used to exercise the duplicate-declaration branch). -/
def afterBarState : PState :=
  (processBlockCore (startState false) (sl "Function") (sl "bar()") [] ⟨sl "foo.scad", 2⟩ []).1

/-- A block (header plus body and terminator) used to exercise body
extraction: the body lines sit at indent 3. -/
def reindentBlock : List Str :=
  [sl "//   alpha",
   sl "//     beta",
   sl "x = 1;"]

instance strLe_total : IsTotal Str strLe where
  total := by
    intro a b
    induction a generalizing b with
    | nil => left; rfl
    | cons x xs ih =>
      cases b with
      | nil => right; rfl
      | cons y ys =>
        simp only [strLe, strLeB]
        by_cases h1 : x.toNat < y.toNat
        · left; rw [if_pos h1]
        · by_cases h2 : y.toNat < x.toNat
          · right; rw [if_pos h2]
          · rw [if_neg h1, if_neg h2, if_neg h2, if_neg h1]
            exact ih ys

instance strLe_trans : IsTrans Str strLe where
  trans := by
    intro a b c hab hbc
    induction a generalizing b c with
    | nil => rfl
    | cons x xs ih =>
      cases b with
      | nil => exact absurd hab (by simp [strLe, strLeB])
      | cons y ys =>
        cases c with
        | nil => exact absurd hbc (by simp [strLe, strLeB])
        | cons z zs =>
          simp only [strLe, strLeB] at hab hbc ⊢
          by_cases h1 : x.toNat < y.toNat
          · by_cases h2 : y.toNat < z.toNat
            · rw [if_pos (Nat.lt_trans h1 h2)]
            · by_cases h3 : z.toNat < y.toNat
              · rw [if_neg h2, if_pos h3] at hbc; exact absurd hbc (by simp)
              · rw [if_pos (by omega : x.toNat < z.toNat)]
          · by_cases h4 : y.toNat < x.toNat
            · rw [if_neg h1, if_pos h4] at hab; exact absurd hab (by simp)
            · by_cases h2 : y.toNat < z.toNat
              · rw [if_pos (by omega : x.toNat < z.toNat)]
              · by_cases h3 : z.toNat < y.toNat
                · rw [if_neg h2, if_pos h3] at hbc; exact absurd hbc (by simp)
                · rw [if_neg h1, if_neg h4] at hab
                  rw [if_neg h2, if_neg h3] at hbc
                  rw [if_neg (by omega : ¬ x.toNat < z.toNat),
                      if_neg (by omega : ¬ z.toNat < x.toNat)]
                  exact ih ys zs hab hbc

/-- None of the eight node-kind options is present in the parsed
`DefineHeader` option dict. -/
def noTargetOption (md : List (Str × MetaVal)) : Bool :=
  (lookupD md (sl "NumList")).isNone && (lookupD md (sl "BulletList")).isNone &&
  (lookupD md (sl "Table")).isNone && (lookupD md (sl "Example")).isNone &&
  (lookupD md (sl "Figure")).isNone && (lookupD md (sl "Label")).isNone &&
  (lookupD md (sl "Text")).isNone && (lookupD md (sl "Generic")).isNone

/-- `Table` is the option the `elif` chain selects: present, and not
preempted by `NumList` or `BulletList`. -/
def tableSelected (md : List (Str × MetaVal)) : Bool :=
  (lookupD md (sl "NumList")).isNone && (lookupD md (sl "BulletList")).isNone &&
  (lookupD md (sl "Table")).isSome

/-! # Theorems

## Shared list lemmas -/

theorem dropWhile_head_false {p : Char → Bool} : ∀ {l : Str} {c : Char} {cs : Str},
    l.dropWhile p = c :: cs → p c = false := by
  intro l
  induction l with
  | nil => intro c cs h; simp at h
  | cons a as ih =>
    intro c cs h
    rw [List.dropWhile_cons] at h
    by_cases hp : p a
    · rw [if_pos hp] at h; exact ih h
    · rw [if_neg hp] at h
      injection h with h1 _
      subst h1
      simpa using hp

theorem span_append_eq {p : Char → Bool} (xs ys : Str)
    (h1 : ∀ x ∈ xs, p x = true) (h2 : ∀ c cs, ys = c :: cs → p c = false) :
    (xs ++ ys).takeWhile p = xs ∧ (xs ++ ys).dropWhile p = ys := by
  induction xs with
  | nil =>
    simp only [List.nil_append]
    cases ys with
    | nil => simp
    | cons c cs =>
      have hc := h2 c cs rfl
      constructor
      · rw [List.takeWhile_cons, if_neg (by simp [hc])]
      · rw [List.dropWhile_cons, if_neg (by simp [hc])]
  | cons a as ih =>
    have ha : p a = true := h1 a (by simp)
    have ih' := ih (fun x hx => h1 x (by simp [hx]))
    constructor
    · rw [List.cons_append, List.takeWhile_cons, if_pos ha, ih'.1]
    · rw [List.cons_append, List.dropWhile_cons, if_pos ha, ih'.2]

theorem isPrefixOf_refl_append : ∀ (a x : Str), a.isPrefixOf (a ++ x) = true
  | [], x => by simp [List.isPrefixOf]
  | c :: t, x => by simp [List.cons_append, List.isPrefixOf, isPrefixOf_refl_append t x]

theorem isPrefixOf_append_cancel : ∀ (a b c : Str),
    (a ++ b).isPrefixOf (a ++ c) = b.isPrefixOf c
  | [], _, _ => rfl
  | x :: t, b, c => by
    simp [List.cons_append, List.isPrefixOf, isPrefixOf_append_cancel t b c]

theorem exists_of_isPrefixOf : ∀ {a l : Str}, a.isPrefixOf l = true → ∃ t, l = a ++ t := by
  intro a
  induction a with
  | nil => intro l _; exact ⟨l, rfl⟩
  | cons x xs ih =>
    intro l h
    cases l with
    | nil => simp [List.isPrefixOf] at h
    | cons y ys =>
      simp only [List.isPrefixOf, Bool.and_eq_true, beq_iff_eq] at h
      obtain ⟨t, ht⟩ := ih h.2
      exact ⟨t, by rw [List.cons_append, h.1, ht]⟩

theorem isPrefixOf_of_append_left {a b l : Str} (h : (a ++ b).isPrefixOf l = true) :
    a.isPrefixOf l = true := by
  obtain ⟨t, ht⟩ := exists_of_isPrefixOf h
  rw [ht, List.append_assoc]
  exact isPrefixOf_refl_append a (b ++ t)

theorem lookupD_dictInsert_self {α : Type} (d : List (Str × α)) (k : Str) (v : α) :
    lookupD (dictInsert d k v) k = some v := by
  induction d with
  | nil => simp [dictInsert, lookupD]
  | cons p rest ih =>
    obtain ⟨k', v'⟩ := p
    by_cases h : k' = k
    · simp [dictInsert, h, lookupD]
    · simp [dictInsert, h, lookupD, ih]

theorem lookupD_dictInsert_ne {α : Type} (d : List (Str × α)) {k k' : Str} (v : α)
    (h : k' ≠ k) : lookupD (dictInsert d k v) k' = lookupD d k' := by
  induction d with
  | nil =>
    simp only [dictInsert, lookupD]
    rw [if_neg (fun hh => h hh.symm)]
  | cons p rest ih =>
    obtain ⟨k0, v0⟩ := p
    by_cases h0 : k0 = k
    · subst h0
      simp only [dictInsert, if_pos rfl, lookupD]
      rw [if_neg (fun hh => h hh.symm), if_neg (fun hh => h hh.symm)]
    · simp only [dictInsert, if_neg h0, lookupD]
      by_cases h1 : k0 = k'
      · rw [if_pos h1, if_pos h1]
      · rw [if_neg h1, if_neg h1, ih]

theorem lookupD_foldl_dictInsert {i : Nat} : ∀ (as : List Str) (d : List (Str × Nat)) (a : Str),
    (a ∈ as ∨ lookupD d a = some i) →
    lookupD (as.foldl (fun d x => dictInsert d x i) d) a = some i := by
  intro as
  induction as with
  | nil =>
    intro d a h
    rcases h with h | h
    · simp at h
    · simpa using h
  | cons b bs ih =>
    intro d a h
    simp only [List.foldl_cons]
    apply ih
    rcases h with h | h
    · rcases List.mem_cons.mp h with rfl | h2
      · right; exact lookupD_dictInsert_self d a i
      · left; exact h2
    · by_cases hab : a = b
      · subst hab; right; exact lookupD_dictInsert_self d a i
      · right; rw [lookupD_dictInsert_ne d i hab]; exact h

theorem getElem?_append_len {α : Type} : ∀ (l l2 : List α) (k : Nat),
    (l ++ l2)[l.length + k]? = l2[k]? := by
  intro l
  induction l with
  | nil => intro l2 k; simp
  | cons x xs ih =>
    intro l2 k
    have hlen : (x :: xs).length + k = (xs.length + k) + 1 := by
      simp [List.length_cons]; omega
    rw [List.cons_append, hlen, List.getElem?_cons_succ]
    exact ih l2 k

theorem spacesL_append : ∀ (m n : Nat), spacesL m ++ spacesL n = spacesL (m + n) := by
  intro m
  induction m with
  | zero => intro n; simp [spacesL]
  | succ k ih => intro n; simp only [spacesL, List.cons_append, ih, Nat.succ_add]

theorem spacesL_all_space : ∀ (n : Nat), ∀ c ∈ spacesL n, pyIsSpace c = true := by
  intro n
  induction n with
  | zero => intro c hc; simp [spacesL] at hc
  | succ k ih =>
    intro c hc
    rcases List.mem_cons.mp hc with rfl | h
    · rfl
    · exact ih c h

theorem length_spacesL : ∀ (n : Nat), (spacesL n).length = n := by
  intro n
  induction n with
  | zero => rfl
  | succ k ih => simp [spacesL, ih]

theorem drop_spacesL_append : ∀ (n : Nat) (x : Str) (d : Nat),
    (spacesL n ++ x).drop (n + d) = x.drop d := by
  intro n
  induction n with
  | zero => intro x d; simp [spacesL]
  | succ k ih =>
    intro x d
    have : k + 1 + d = (k + d) + 1 := by omega
    simp only [spacesL, List.cons_append, this, List.drop_succ_cons]
    exact ih x d

theorem takeWhile_spacesL_append : ∀ (n : Nat) (x : Str),
    (spacesL n ++ x).takeWhile pyIsSpace = spacesL n ++ x.takeWhile pyIsSpace := by
  intro n
  induction n with
  | zero => intro x; simp [spacesL]
  | succ k ih =>
    intro x
    simp only [spacesL, List.cons_append, List.takeWhile_cons]
    rw [if_pos (by decide : pyIsSpace ' ' = true), ih]

/-! ## HeaderMatcher: the grammar equivalence (C7) -/

theorem secondWord_none (w1 r : Str) (hr : ∀ c cs, r = c :: cs → c ≠ ' ') :
    secondWord w1 r = none := by
  cases r with
  | nil => rfl
  | cons a t =>
    simp only [secondWord]
    rw [if_neg (hr a t rfl)]

theorem matchTitle_complete (t r : Str) (ht : IsTitleStr t)
    (hr : ∀ c cs, r = c :: cs → isWordChar c = false ∧ c ≠ ' ') :
    matchTitle (t ++ r) = some (t, r) := by
  have hspan : ∀ (cs : Str), (∀ x ∈ cs, isWordChar x = true) →
      (cs ++ r).takeWhile isWordChar = cs ∧ (cs ++ r).dropWhile isWordChar = r :=
    fun cs hall => span_append_eq cs r hall (fun c cs' hc => (hr c cs' hc).1)
  rcases ht with ⟨c, cs, rfl, hup, hall⟩ |
      ⟨w1, w2, rfl, ⟨c1, cs1, rfl, hup1, hall1⟩, ⟨c2, cs2, rfl, hup2, hall2⟩⟩
  · show matchTitle (c :: (cs ++ r)) = _
    simp only [matchTitle]
    rw [if_pos hup, (hspan cs hall).1, (hspan cs hall).2,
      secondWord_none _ r (fun c' cs' hc => (hr c' cs' hc).2)]
  · show matchTitle ((c1 :: cs1 ++ ' ' :: (c2 :: cs2)) ++ r) = _
    have hshape : (c1 :: cs1 ++ ' ' :: (c2 :: cs2)) ++ r =
        c1 :: (cs1 ++ (' ' :: (c2 :: (cs2 ++ r)))) := by simp
    rw [hshape]
    simp only [matchTitle]
    rw [if_pos hup1]
    have hsp1 := span_append_eq cs1 (' ' :: (c2 :: (cs2 ++ r))) hall1
      (by intro c' cs' hc; injection hc with h1 _; rw [← h1]; decide)
    rw [hsp1.1, hsp1.2]
    have hsp2 : (cs2 ++ r).takeWhile isWordChar = cs2 ∧
        (cs2 ++ r).dropWhile isWordChar = r :=
      span_append_eq cs2 r hall2 (fun c' cs' hc => (hr c' cs' hc).1)
    simp [secondWord, hup2, hsp2.1, hsp2.2]

theorem matchMeta_complete (mp m sp : Str) (hm : MetaPartStr mp m) :
    matchMeta (mp ++ ':' :: sp) = some (m, ':' :: sp) := by
  rcases hm with ⟨rfl, rfl⟩ | ⟨rfl, hnp⟩
  · show matchMeta (':' :: sp) = _
    simp [matchMeta]
  · show matchMeta (('(' :: m ++ [')']) ++ ':' :: sp) = _
    have hshape : ('(' :: m ++ [')']) ++ ':' :: sp = '(' :: (m ++ (')' :: ':' :: sp)) := by
      simp
    have hall : ∀ x ∈ m, (fun c => decide (c ≠ ')')) x = true := by
      intro x hx
      simpa using hnp x hx
    have hsp := span_append_eq m (')' :: ':' :: sp) hall
      (by intro c' cs' hc; injection hc with h1 _; rw [← h1]; decide)
    rw [hshape]
    simp only [matchMeta, if_true, hsp.1, hsp.2]

theorem matchHeader_complete (line t m s : Str) (hg : HeaderGrammar line t m s) :
    matchHeader line = some (t, m, s) := by
  obtain ⟨mp, sp, rfl, ht, hm, hsub⟩ := hg
  have hr : ∀ c cs, mp ++ ':' :: sp = c :: cs → isWordChar c = false ∧ c ≠ ' ' := by
    intro c cs hc
    rcases hm with ⟨rfl, _⟩ | ⟨rfl, _⟩
    · injection hc with h1 _
      rw [← h1]
      exact ⟨by decide, by decide⟩
    · injection hc with h1 _
      rw [← h1]
      exact ⟨by decide, by decide⟩
  have hmt := matchTitle_complete t (mp ++ ':' :: sp) ht hr
  have hmm := matchMeta_complete mp m sp hm
  obtain ⟨hsp, hs⟩ := hsub
  subst hs
  rcases hsp with rfl | ⟨raw, rfl⟩ <;>
    simp [matchHeader, mh1, mh2, mhRest, mhAfterTitle, mhColon, mhSub,
      List.append_assoc, hmt, hmm, stripL, lstripL, rstripL]

theorem secondWord_sound (w1 r1 t r : Str) (h : secondWord w1 r1 = some (t, r)) :
    ∃ b r2, r1 = ' ' :: b :: r2 ∧ isUpperChar b = true ∧
      t = w1 ++ ' ' :: b :: r2.takeWhile isWordChar ∧ r = r2.dropWhile isWordChar := by
  cases r1 with
  | nil => simp [secondWord] at h
  | cons a tl =>
    simp only [secondWord] at h
    by_cases ha : a = ' '
    swap
    · rw [if_neg ha] at h; exact absurd h (by simp)
    rw [if_pos ha] at h
    cases tl with
    | nil => simp at h
    | cons b r2 =>
      by_cases hb : isUpperChar b
      · simp only [hb, if_true] at h
        simp only [Option.some.injEq, Prod.mk.injEq] at h
        exact ⟨b, r2, by rw [ha], hb, h.1.symm, h.2.symm⟩
      · simp [hb] at h

theorem matchTitle_sound (x t r : Str) (h : matchTitle x = some (t, r)) :
    x = t ++ r ∧ IsTitleStr t := by
  cases x with
  | nil => simp [matchTitle] at h
  | cons c rest =>
    simp only [matchTitle] at h
    by_cases hup : isUpperChar c
    swap
    · rw [if_neg hup] at h; exact absurd h (by simp)
    rw [if_pos hup] at h
    have hword1 : ∀ y ∈ rest.takeWhile isWordChar, isWordChar y = true :=
      fun y hy => List.mem_takeWhile_imp hy
    cases hsw : secondWord (c :: rest.takeWhile isWordChar) (rest.dropWhile isWordChar) with
    | none =>
      rw [hsw] at h
      simp only [Option.some.injEq, Prod.mk.injEq] at h
      obtain ⟨ht, hr⟩ := h
      subst ht
      subst hr
      refine ⟨?_, Or.inl ⟨c, rest.takeWhile isWordChar, rfl, hup, hword1⟩⟩
      rw [List.cons_append, List.takeWhile_append_dropWhile]
    | some res =>
      rw [hsw] at h
      obtain ⟨rt, rr⟩ := res
      simp only [Option.some.injEq, Prod.mk.injEq] at h
      obtain ⟨ht, hr⟩ := h
      subst ht
      subst hr
      obtain ⟨b, r2, hdrop, hb, ht2, hr2⟩ :=
        secondWord_sound (c :: rest.takeWhile isWordChar) (rest.dropWhile isWordChar) rt rr hsw
      subst ht2
      subst hr2
      constructor
      · have hx : rest = rest.takeWhile isWordChar ++ (' ' :: b :: r2) := by
          conv_lhs => rw [← List.takeWhile_append_dropWhile isWordChar rest]
          rw [hdrop]
        have hr2x : r2 = r2.takeWhile isWordChar ++ r2.dropWhile isWordChar :=
          (List.takeWhile_append_dropWhile isWordChar r2).symm
        show c :: rest = _
        conv_lhs => rw [hx, hr2x]
        simp
      · exact Or.inr ⟨c :: rest.takeWhile isWordChar, b :: r2.takeWhile isWordChar,
          by simp, ⟨c, rest.takeWhile isWordChar, rfl, hup, hword1⟩,
          ⟨b, r2.takeWhile isWordChar, rfl, hb, fun y hy => List.mem_takeWhile_imp hy⟩⟩

theorem matchMeta_sound (x m r2 : Str) (h : matchMeta x = some (m, r2)) :
    ∃ mp, x = mp ++ r2 ∧ MetaPartStr mp m := by
  cases x with
  | nil =>
    simp only [matchMeta, Option.some.injEq, Prod.mk.injEq] at h
    exact ⟨[], by simp [← h.2], Or.inl ⟨rfl, h.1.symm⟩⟩
  | cons c rest =>
    simp only [matchMeta] at h
    by_cases hc : c = '('
    · rw [if_pos hc] at h
      cases hD : rest.dropWhile (fun x => decide (x ≠ ')')) with
      | nil => rw [hD] at h; simp at h
      | cons d rtail =>
        rw [hD] at h
        simp only [Option.some.injEq, Prod.mk.injEq] at h
        obtain ⟨hm, hr⟩ := h
        have hd : d = ')' := by
          have := dropWhile_head_false hD
          simpa using this
        refine ⟨'(' :: m ++ [')'], ?_, Or.inr ⟨rfl, ?_⟩⟩
        · subst hc
          have hrest : rest = rest.takeWhile (fun x => decide (x ≠ ')')) ++ (d :: rtail) := by
            rw [← hD, List.takeWhile_append_dropWhile]
          rw [← hr]
          conv_lhs => rw [hrest, hm, hd]
          simp
        · intro y hy
          rw [← hm] at hy
          have := List.mem_takeWhile_imp hy
          simpa using this
    · rw [if_neg hc] at h
      simp only [Option.some.injEq, Prod.mk.injEq] at h
      exact ⟨[], by simp [← h.2], Or.inl ⟨rfl, h.1.symm⟩⟩

theorem matchHeader_sound (line t m s : Str) (h : matchHeader line = some (t, m, s)) :
    HeaderGrammar line t m s := by
  cases line with
  | nil => simp [matchHeader] at h
  | cons c1 t1 =>
    simp only [matchHeader] at h
    by_cases h1 : c1 = '/'
    swap
    · rw [if_neg h1] at h; exact absurd h (by simp)
    rw [if_pos h1] at h
    subst h1
    cases t1 with
    | nil => simp [mh1] at h
    | cons c2 t2 =>
      simp only [mh1] at h
      by_cases h2 : c2 = '/'
      swap
      · rw [if_neg h2] at h; exact absurd h (by simp)
      rw [if_pos h2] at h
      subst h2
      cases t2 with
      | nil => simp [mh2] at h
      | cons c3 rest =>
        simp only [mh2] at h
        by_cases h3 : c3 = ' '
        swap
        · rw [if_neg h3] at h; exact absurd h (by simp)
        rw [if_pos h3] at h
        subst h3
        simp only [mhRest] at h
        cases hmt : matchTitle rest with
        | none => rw [hmt] at h; simp at h
        | some p =>
          rw [hmt] at h
          obtain ⟨ti, r1⟩ := p
          rw [Option.some_bind] at h
          simp only [mhAfterTitle] at h
          cases hmm : matchMeta r1 with
          | none => rw [hmm] at h; simp at h
          | some q =>
            rw [hmm] at h
            obtain ⟨me, r2⟩ := q
            rw [Option.some_bind] at h
            cases r2 with
            | nil => simp [mhColon] at h
            | cons c4 r3 =>
              simp only [mhColon] at h
              by_cases h4 : c4 = ':'
              swap
              · rw [if_neg h4] at h; exact absurd h (by simp)
              rw [if_pos h4] at h
              subst h4
              obtain ⟨hx1, hti⟩ := matchTitle_sound rest ti r1 hmt
              obtain ⟨mp, hx2, hmp⟩ := matchMeta_sound r1 me (':' :: r3) hmm
              cases r3 with
              | nil =>
                simp only [mhSub, Option.some.injEq, Prod.mk.injEq] at h
                obtain ⟨hteq, hmeq, hseq⟩ := h
                subst hteq
                subst hmeq
                refine ⟨mp, [], ?_, hti, hmp, Or.inl rfl, by rw [← hseq]; rfl⟩
                rw [hx1, hx2, List.append_assoc]
              | cons c5 sub =>
                simp only [mhSub] at h
                by_cases h5 : c5 = ' '
                swap
                · rw [if_neg h5] at h; exact absurd h (by simp)
                rw [if_pos h5] at h
                subst h5
                simp only [Option.some.injEq, Prod.mk.injEq] at h
                obtain ⟨hteq, hmeq, hseq⟩ := h
                subst hteq
                subst hmeq
                refine ⟨mp, ' ' :: sub, ?_, hti, hmp, Or.inr ⟨sub, rfl⟩, ?_⟩
                · rw [hx1, hx2, List.append_assoc]
                · rw [← hseq]

/-- C7: The header matcher is a pure function of its input line, and matches
exactly the spec's header grammar: a line yields the triple
`(title, meta, subtitle)` if and only if it decomposes as comment prefix,
one-or-two-capitalized-word title, optional parenthesized metadata, colon and
optional trimmed subtitle, with exactly those components. -/
theorem header_matcher_exact (line t m s : Str) :
    matchHeader line = some (t, m, s) ↔ HeaderGrammar line t m s :=
  ⟨matchHeader_sound line t m s, matchHeader_complete line t m s⟩

/-! ## BodyExtractor: re-indentation invariance (C8) -/

theorem two_spaces_pre (n : Nat) (tl : Str) :
    ([' ', ' ']).isPrefixOf (spacesL n ++ ' ' :: ' ' :: tl) = true := by
  cases n with
  | zero => simp [spacesL, List.isPrefixOf]
  | succ m =>
    cases m with
    | zero => simp [spacesL, List.isPrefixOf]
    | succ m2 => simp [spacesL, List.isPrefixOf]

theorem addIndent_keeps_prefix {d : Nat} {l : Str} (n : Nat)
    (h : (['/', '/'] ++ spacesL d).isPrefixOf l = true) :
    (['/', '/'] ++ spacesL (n + d)).isPrefixOf (addIndent n l) = true ∧
      ((addIndent n l).drop 2).drop (n + d) = (l.drop 2).drop d := by
  obtain ⟨tl, htl⟩ := exists_of_isPrefixOf h
  have hdrop : l.drop 2 = spacesL d ++ tl := by
    rw [htl]
    simp
  have haddl : addIndent n l = ['/', '/'] ++ (spacesL n ++ (spacesL d ++ tl)) := by
    simp [addIndent, hdrop]
  constructor
  · rw [haddl]
    rw [isPrefixOf_append_cancel ['/', '/'] (spacesL (n + d)) (spacesL n ++ (spacesL d ++ tl))]
    rw [← spacesL_append n d, ← List.append_assoc]
    exact isPrefixOf_refl_append (spacesL n ++ spacesL d) tl
  · rw [haddl, hdrop]
    have h2 : (['/', '/'] ++ (spacesL n ++ (spacesL d ++ tl))).drop 2 =
        spacesL n ++ (spacesL d ++ tl) := by simp
    rw [h2, drop_spacesL_append n (spacesL d ++ tl) d]

theorem not_prefix_of_reindent {d n : Nat} {l : Str}
    (h : ¬(['/', '/'] ++ spacesL d).isPrefixOf l = true) :
    ¬(['/', '/'] ++ spacesL (n + d)).isPrefixOf l = true := by
  intro hnp
  apply h
  have hsplit : ['/', '/'] ++ spacesL (n + d) =
      (['/', '/'] ++ spacesL d) ++ spacesL n := by
    rw [List.append_assoc, spacesL_append d n, Nat.add_comm d n]
  rw [hsplit] at hnp
  exact isPrefixOf_of_append_left hnp

theorem extractAux_reindent (ti : Str) (d n : Nat) :
    ∀ (rest : List Str) (b : List Str) (c : Nat),
      extractAux ti d rest = .ok (b, c) →
      extractAux ti (n + d) ((rest.take c).map (addIndent n) ++ rest.drop c) = .ok (b, c) := by
  intro rest
  induction rest with
  | nil =>
    intro b c h
    simp only [extractAux, Except.ok.injEq, Prod.mk.injEq] at h
    obtain ⟨hb, hc⟩ := h
    subst hb
    subst hc
    simp [extractAux]
  | cons l rest ih =>
    intro b c h
    simp only [extractAux] at h
    by_cases h1 : (['/', '/'] ++ spacesL d).isPrefixOf l
    · rw [if_pos h1] at h
      cases hrec : extractAux ti d rest with
      | error e => rw [hrec] at h; simp [exCons] at h
      | ok p =>
        obtain ⟨b0, c0⟩ := p
        rw [hrec] at h
        simp only [exCons, Except.ok.injEq, Prod.mk.injEq] at h
        obtain ⟨hb, hc⟩ := h
        subst hb
        subst hc
        obtain ⟨hpre, hdrop⟩ := addIndent_keeps_prefix n h1
        simp only [List.take_succ_cons, List.map_cons, List.cons_append, List.drop_succ_cons]
        simp only [extractAux]
        rw [if_pos hpre, ih b0 c0 hrec]
        simp only [exCons, hdrop]
    · rw [if_neg h1] at h
      by_cases h2 : (['/', '/', ' ', ' ']).isPrefixOf l
      · rw [if_pos h2] at h
        simp at h
      · rw [if_neg h2] at h
        simp only [Except.ok.injEq, Prod.mk.injEq] at h
        obtain ⟨hb, hc⟩ := h
        subst hb
        subst hc
        simp only [List.take_zero, List.map_nil, List.nil_append, List.drop_zero]
        simp only [extractAux]
        rw [if_neg (not_prefix_of_reindent h1), if_neg h2]

/-- C8: Body extraction is invariant under uniform re-indentation: if
extraction of a block's body succeeds, consuming `k` lines and yielding
`body`, then prefixing each consumed line with `n` additional spaces after
the comment prefix and re-extracting yields exactly the same normalized body
lines and the same stopping index. -/
theorem body_extraction_reindent (ti : Str) (bs : List Str) (n : Nat) (body : List Str)
    (k : Nat) (h : extractBody ti bs 0 = .ok (body, k)) :
    extractBody ti ((bs.take k).map (addIndent n) ++ bs.drop k) 0 = .ok (body, k) := by
  simp only [extractBody, List.drop_zero] at h ⊢
  cases bs with
  | nil =>
    simp only [extractBodyAux, Except.ok.injEq, Prod.mk.injEq] at h
    obtain ⟨hb, hk⟩ := h
    subst hb
    subst hk
    simp [extractBodyAux]
  | cons l rest =>
    simp only [extractBodyAux] at h
    by_cases h1 : (['/', '/', ' ', ' ']).isPrefixOf l
    · rw [if_pos h1] at h
      cases hrec : extractAux ti ((l.drop 2).takeWhile pyIsSpace).length rest with
      | error e =>
        rw [hrec] at h
        simp [exFirst] at h
      | ok p =>
        obtain ⟨b0, c0⟩ := p
        rw [hrec] at h
        simp only [exFirst, Except.ok.injEq, Prod.mk.injEq] at h
        obtain ⟨hb, hk⟩ := h
        subst hb
        obtain ⟨tl, htl⟩ := exists_of_isPrefixOf h1
        have hcontent : l.drop 2 = ' ' :: ' ' :: tl := by
          rw [htl]
          simp
        have haddl : (addIndent n l).drop 2 = spacesL n ++ l.drop 2 := by
          simp [addIndent]
        have hd' : ((addIndent n l).drop 2).takeWhile pyIsSpace =
            spacesL n ++ (l.drop 2).takeWhile pyIsSpace := by
          rw [haddl, takeWhile_spacesL_append]
        have hdlen : (((addIndent n l).drop 2).takeWhile pyIsSpace).length =
            n + ((l.drop 2).takeWhile pyIsSpace).length := by
          rw [hd']
          simp [length_spacesL]
        have hfirst : (['/', '/', ' ', ' ']).isPrefixOf (addIndent n l) = true := by
          have : addIndent n l = ['/', '/'] ++ (spacesL n ++ (' ' :: ' ' :: tl)) := by
            simp [addIndent, hcontent]
          have hlit : (['/', '/', ' ', ' '] : Str) = ['/', '/'] ++ [' ', ' '] := rfl
          rw [this, hlit, isPrefixOf_append_cancel ['/', '/'] [' ', ' ']
            (spacesL n ++ (' ' :: ' ' :: tl))]
          exact two_spaces_pre n tl
        have hkc : k = c0 + 1 := by omega
        subst hkc
        simp only [List.take_succ_cons, List.map_cons, List.cons_append, List.drop_succ_cons]
        simp only [extractBodyAux]
        rw [if_pos hfirst]
        simp only [hdlen]
        rw [extractAux_reindent ti ((l.drop 2).takeWhile pyIsSpace).length n rest b0 c0 hrec]
        simp only [exFirst]
        have hdropeq : ((addIndent n l).drop 2).drop
            (n + ((l.drop 2).takeWhile pyIsSpace).length) =
            (l.drop 2).drop ((l.drop 2).takeWhile pyIsSpace).length := by
          rw [haddl, drop_spacesL_append]
        rw [hdropeq]
        norm_num
        omega
    · rw [if_neg h1] at h
      simp only [Except.ok.injEq, Prod.mk.injEq] at h
      obtain ⟨hb, hk⟩ := h
      subst hb
      subst hk
      simp only [List.take_zero, List.map_nil, List.nil_append, List.drop_zero]
      simp only [extractBodyAux]
      rw [if_neg h1]

theorem body_extraction_reindent_witness :
    extractBody (sl "Function")
        ((reindentBlock.take 2).map (addIndent 2) ++ reindentBlock.drop 2) 0 =
      .ok ([sl "alpha", sl "  beta"], 2) :=
  body_extraction_reindent (sl "Function") reindentBlock 2 [sl "alpha", sl "  beta"] 2
    (by rfl)

/-! ## NameIndex enumeration (C5) -/

/-- C5 counterexample: on the unit declaring `B()` then `a()`, the name
enumeration yields `["B()", "a()"]` — codepoint order — which is not
case-insensitive alphabetical order ("a()" should precede "B()"). -/
theorem indexed_names_not_case_insensitive :
    getIndexedNames (finalState (parseLines (startState false) mixedCaseUnit (sl "foo.scad")))
        = [sl "B()", sl "a()"] ∧
      ciSortedB (getIndexedNames
        (finalState (parseLines (startState false) mixedCaseUnit (sl "foo.scad")))) = false :=
  ⟨by rfl, by rfl⟩

/-- C5 (amended): `get_indexed_names` yields, for every state of the
NameIndex, exactly the registered names (primary names and aliases), in
case-sensitive codepoint-lexicographic ascending order. -/
theorem indexed_names_sorted (st : PState) :
    (getIndexedNames st).Perm (st.itemsByName.map Prod.fst) ∧
      (getIndexedNames st).Sorted strLe :=
  ⟨List.perm_insertionSort strLe (st.itemsByName.map Prod.fst),
   List.sorted_insertionSort strLe (st.itemsByName.map Prod.fst)⟩

/-! ## BlockTypeRegistry: DefineHeader option handling (C6) -/

/-- C6 counterexample: a `DefineHeader` option string with two node-kind
options (`NumList` and `BulletList` both present) is not a configuration
error; the first option in the chain wins. -/
theorem define_blocktype_two_options_no_error :
    (lookupD (parseMetaDict (sl "NumList;BulletList")) (sl "NumList")).isSome = true ∧
      (lookupD (parseMetaDict (sl "NumList;BulletList")) (sl "BulletList")).isSome = true ∧
      defineBlocktype [] (sl "Foo") (sl "NumList;BulletList") =
        .ok [(sl "Foo", ⟨false, .NumberedList, none, none⟩)] :=
  ⟨by rfl, by rfl, by rfl⟩

/-- C6 (amended): `_define_blocktype` raises a configuration error exactly
when no node-kind option is present, or when `Table` is selected without a
`Headers` option; when `Table` is selected with a string-valued `Headers`
option, the value is split on `||` into header sets, each split on `|` into
trimmed column names, and the definition is recorded. -/
theorem define_blocktype_spec (defs : List (Str × HeaderDef)) (title meta : Str) :
    ((∃ e, defineBlocktype defs title meta = .error (.docsgen e)) ↔
      (noTargetOption (parseMetaDict meta) = true ∨
        (tableSelected (parseMetaDict meta) = true ∧
          lookupD (parseMetaDict meta) (sl "Headers") = none)))
    ∧ (∀ v, tableSelected (parseMetaDict meta) = true →
        lookupD (parseMetaDict meta) (sl "Headers") = some (.str v) →
        defineBlocktype defs title meta = .ok (dictInsert defs (stripL title)
          ⟨(lookupD (parseMetaDict meta) (sl "ItemOnly")).isSome, .Table,
            some (mkHdrSets v), none⟩)) := by
  constructor
  · cases hN : lookupD (parseMetaDict meta) (sl "NumList") with
    | some v => simp [defineBlocktype, hN, noTargetOption, tableSelected]
    | none =>
    cases hB : lookupD (parseMetaDict meta) (sl "BulletList") with
    | some v => simp [defineBlocktype, hN, hB, noTargetOption, tableSelected]
    | none =>
    cases hT : lookupD (parseMetaDict meta) (sl "Table") with
    | some v =>
      cases hH : lookupD (parseMetaDict meta) (sl "Headers") with
      | none => simp [defineBlocktype, hN, hB, hT, hH, noTargetOption, tableSelected]
      | some mv =>
        cases mv with
        | flag => simp [defineBlocktype, hN, hB, hT, hH, noTargetOption, tableSelected]
        | str v2 => simp [defineBlocktype, hN, hB, hT, hH, noTargetOption, tableSelected]
    | none =>
    cases hE : lookupD (parseMetaDict meta) (sl "Example") with
    | some v => simp [defineBlocktype, hN, hB, hT, hE, noTargetOption, tableSelected]
    | none =>
    cases hF : lookupD (parseMetaDict meta) (sl "Figure") with
    | some v => simp [defineBlocktype, hN, hB, hT, hE, hF, noTargetOption, tableSelected]
    | none =>
    cases hL : lookupD (parseMetaDict meta) (sl "Label") with
    | some v => simp [defineBlocktype, hN, hB, hT, hE, hF, hL, noTargetOption, tableSelected]
    | none =>
    cases hX : lookupD (parseMetaDict meta) (sl "Text") with
    | some v =>
      simp [defineBlocktype, hN, hB, hT, hE, hF, hL, hX, noTargetOption, tableSelected]
    | none =>
    cases hG : lookupD (parseMetaDict meta) (sl "Generic") with
    | some v =>
      simp [defineBlocktype, hN, hB, hT, hE, hF, hL, hX, hG, noTargetOption, tableSelected]
    | none =>
      simp [defineBlocktype, hN, hB, hT, hE, hF, hL, hX, hG, noTargetOption, tableSelected]
  · intro v htab hv
    simp only [tableSelected, Bool.and_eq_true, Option.isNone_iff_eq_none] at htab
    obtain ⟨⟨hN, hB⟩, hT⟩ := htab
    simp only [Option.isSome_iff_exists] at hT
    obtain ⟨tv, hT⟩ := hT
    simp [defineBlocktype, hN, hB, hT, hv]

theorem define_blocktype_spec_witness :
    defineBlocktype [] (sl "MyTable") (sl "Table;Headers=A|B||C") =
      .ok (dictInsert [] (stripL (sl "MyTable"))
        ⟨(lookupD (parseMetaDict (sl "Table;Headers=A|B||C")) (sl "ItemOnly")).isSome, .Table,
          some (mkHdrSets (sl "A|B||C")), none⟩) :=
  (define_blocktype_spec [] (sl "MyTable") (sl "Table;Headers=A|B||C")).2 (sl "A|B||C")
    (by rfl) (by rfl)

/-! ## Orphan leaf blocks (C3) -/

/-- C3 counterexample: a `Figure` header with no open Item is not dropped: in
a unit with no Item at all, it creates a Figure node (and still logs no
error). -/
theorem orphan_figure_creates_node :
    countKind (finalState (parseLines (startState false) orphanFigureUnit (sl "foo.scad")))
        BlockKind.Figure = 1 ∧
      countKind (finalState (parseLines (startState false) orphanFigureUnit (sl "foo.scad")))
        BlockKind.Item = 0 ∧
      (finalState (parseLines (startState false) orphanFigureUnit (sl "foo.scad"))).errlog
        = [] :=
  ⟨by rfl, by rfl, by rfl⟩

/-- C3 (amended): with strict mode off and the titles not redefined in the
registry, a `Topics`, `See Also` or `Example` header processed while no Item
is open creates no node, logs no error, and leaves the state untouched.
(`Figure` is excluded: it creates a node regardless, see the counterexample.) -/
theorem orphan_leafs_dropped (st : PState) (subtitle : Str) (body : List Str)
    (origin : Origin) (meta : Str) (title : Str)
    (htitle : title = sl "Topics" ∨ title = sl "See Also" ∨ title = sl "Example")
    (hstrict : st.strict = false)
    (hitem : st.currItem = none)
    (ht : lookupD st.headerDefs (sl "Topics") = none)
    (hsa : lookupD st.headerDefs (sl "See Also") = none) :
    processBlockCore st title subtitle body origin meta = (st, none) := by
  rcases htitle with rfl | rfl | rfl
  · simp +decide [processBlockCore, processLookup, processFallback, hstrict, hitem, ht]
  · simp +decide [processBlockCore, processLookup, processFallback, hstrict, hitem, hsa]
  · simp +decide [processBlockCore, hstrict, hitem]

theorem orphan_leafs_dropped_witness :
    processBlockCore (startState false) (sl "Topics") (sl "A, B") [] ⟨sl "f.scad", 3⟩ [] =
      (startState false, none) :=
  orphan_leafs_dropped (startState false) (sl "A, B") [] ⟨sl "f.scad", 3⟩ [] (sl "Topics")
    (Or.inl rfl) (by rfl) (by rfl) (by rfl) (by rfl)

/-! ## Orphan Section (C9) -/

/-- C9 counterexample: with strict mode enabled, a `Section` header with no
open File does not auto-create a placeholder File node; it logs a FAIL and
creates nothing. -/
theorem orphan_section_strict_errors :
    (finalState (parseLines (startState true) orphanSectionUnit (sl "foo.scad"))).nodes = [] ∧
      countFails (finalState (parseLines (startState true) orphanSectionUnit
        (sl "foo.scad"))) = 1 :=
  ⟨by rfl, by rfl⟩

/-- C9 (amended): with strict mode off, a `Section` header processed while no
File node exists auto-creates the placeholder File node
(`FileBlock("LibFile", origin.file, [], origin)`), attaches the new Section
to it, makes the Section the current parent, and logs no error. -/
theorem orphan_section_autocreates_file (st : PState) (subtitle : Str) (body : List Str)
    (origin : Origin) (meta : Str)
    (hstrict : st.strict = false) (hfile : st.currFile = none) :
    processBlockCore st (sl "Section") subtitle body origin meta =
      ({ st with
          nodes := st.nodes ++ [mkNode .File (sl "LibFile") origin.file [] origin none [] none, mkNode .Section (sl "Section") subtitle body origin (some st.nodes.length) [] none],
          fileBlocks := st.fileBlocks ++ [st.nodes.length],
          currFile := some st.nodes.length,
          currSection := some (st.nodes.length + 1),
          currSubsection := none,
          currParent := some (st.nodes.length + 1) }, none) := by
  simp +decide [processBlockCore, mkFileNode, addNode, hstrict, hfile]

theorem orphan_section_autocreates_file_witness :
    processBlockCore (startState false) (sl "Section") (sl "Stuff") [] ⟨sl "f.scad", 1⟩ [] =
      ({ startState false with
          nodes := [mkNode .File (sl "LibFile") (sl "f.scad") [] ⟨sl "f.scad", 1⟩ none [] none,
            mkNode .Section (sl "Section") (sl "Stuff") [] ⟨sl "f.scad", 1⟩ (some 0) [] none],
          fileBlocks := [0],
          currFile := some 0,
          currSection := some 1,
          currSubsection := none,
          currParent := some 1 }, none) := by
  have h := orphan_section_autocreates_file (startState false) (sl "Stuff") []
    ⟨sl "f.scad", 1⟩ [] (by rfl) (by rfl)
  simpa using h

/-! ## Item declaration and the NameIndex (C2) -/

theorem getElem?_append_of_some {α : Type} : ∀ {l : List α} (l2 : List α) {i : Nat} {x : α},
    l[i]? = some x → (l ++ l2)[i]? = some x := by
  intro l
  induction l with
  | nil => intro l2 i x h; simp at h
  | cons a t ih =>
    intro l2 i x h
    cases i with
    | zero => simpa using h
    | succ k =>
      rw [List.getElem?_cons_succ] at h
      rw [List.cons_append, List.getElem?_cons_succ]
      exact ih l2 h

theorem getElem?_append_self {α : Type} (l : List α) (x : α) :
    (l ++ [x])[l.length]? = some x := by
  have h := getElem?_append_len l [x] 0
  simpa using h

theorem countItemsL_append (s : Str) (l1 l2 : List Node) :
    countItemsL s (l1 ++ l2) = countItemsL s l1 + countItemsL s l2 := by
  induction l1 with
  | nil => simp [countItemsL]
  | cons n rest ih => simp [countItemsL, ih]; omega

theorem countItemsL_single_nonitem (s : Str) (n : Node) (h : n.kind ≠ BlockKind.Item) :
    countItemsL s [n] = 0 := by
  simp [countItemsL, h]

theorem mkFileNode_invar (st : PState) (origin : Origin) (s : Str) :
    (mkFileNode st origin).itemsByName = st.itemsByName ∧
    (mkFileNode st origin).errlog = st.errlog ∧
    (mkFileNode st origin).currSection = st.currSection ∧
    countItems (mkFileNode st origin) s = countItems st s ∧
    (∀ pid nd, nodeAt st pid = some nd → nodeAt (mkFileNode st origin) pid = some nd) := by
  by_cases h : st.currFile.isSome
  · simp [mkFileNode, h]
  · simp only [mkFileNode, h, if_false, Bool.false_eq_true]
    refine ⟨rfl, rfl, rfl, ?_, ?_⟩
    · simp only [countItems, addNode]
      rw [countItemsL_append]
      rw [countItemsL_single_nonitem s _ (by simp [mkNode])]
      omega
    · intro pid nd hnd
      simp only [addNode, nodeAt] at hnd ⊢
      exact getElem?_append_of_some _ hnd

theorem ensureSection_invar (st1 : PState) (origin : Origin) (s : Str) (oc : Option Nat) :
    (ensureSection st1 origin oc).1.itemsByName = st1.itemsByName ∧
    (ensureSection st1 origin oc).1.errlog = st1.errlog ∧
    countItems (ensureSection st1 origin oc).1 s = countItems st1 s ∧
    (∀ pid nd, nodeAt st1 pid = some nd → nodeAt (ensureSection st1 origin oc).1 pid = some nd) := by
  cases oc with
  | some sec =>
    refine ⟨rfl, rfl, rfl, ?_⟩
    intro pid nd hnd
    exact hnd
  | none =>
    refine ⟨rfl, rfl, ?_, ?_⟩
    · simp only [ensureSection, addNode, countItems]
      rw [countItemsL_append]
      rw [countItemsL_single_nonitem s _ (by simp [mkNode])]
      omega
    · intro pid nd hnd
      simp only [ensureSection, addNode, nodeAt] at hnd ⊢
      exact getElem?_append_of_some _ hnd

theorem updateNode_invar (st : PState) (i : Nat) (f : Node → Node) :
    (updateNode st i f).errlog = st.errlog ∧
    (updateNode st i f).itemsByName = st.itemsByName ∧
    (updateNode st i f).currItem = st.currItem := by
  cases h : st.nodes[i]? <;> simp [updateNode, h]

theorem processItemBlock_fresh (st : PState) (title subtitle : Str) (body : List Str)
    (origin : Origin) (hfresh : lookupD st.itemsByName subtitle = none) :
    ∃ st' iid, processItemBlock st title subtitle body origin = (st', none) ∧
      st'.errlog = st.errlog ∧
      countItems st' subtitle = countItems st subtitle + 1 ∧
      lookupD st'.itemsByName subtitle = some iid ∧
      st'.currItem = some iid ∧
      ∃ nd, nodeAt st' iid = some nd ∧ nd.kind = BlockKind.Item ∧ nd.subtitle = subtitle ∧
        nd.origin = origin := by
  obtain ⟨hi1, he1, hs1, hc1, hn1⟩ := mkFileNode_invar st origin subtitle
  obtain ⟨hi2, he2, hc2, hn2⟩ :=
    ensureSection_invar (mkFileNode st origin) origin subtitle (mkFileNode st origin).currSection
  simp only [processItemBlock]
  have hl2 : lookupD (ensureSection (mkFileNode st origin) origin
      (mkFileNode st origin).currSection).1.itemsByName subtitle = none := by
    rw [hi2, hi1]
    exact hfresh
  rw [hl2]
  simp only [processItemReg, addNode]
  refine ⟨_, (ensureSection (mkFileNode st origin) origin
      (mkFileNode st origin).currSection).1.nodes.length, rfl, ?_, ?_, ?_, ?_, ?_⟩
  · simpa using (he2.trans he1)
  · simp only [countItems]
    rw [countItemsL_append]
    have hone : countItemsL subtitle [mkNode .Item title subtitle body origin
        (some (ensureSection (mkFileNode st origin) origin
          (mkFileNode st origin).currSection).2) [] none] = 1 := by
      simp [countItemsL, mkNode]
    rw [hone]
    have := hc2.trans hc1
    simp only [countItems] at this
    rw [this]
  · simp only [lookupD_dictInsert_self]
  · rfl
  · exact ⟨mkNode .Item title subtitle body origin
      (some (ensureSection (mkFileNode st origin) origin
        (mkFileNode st origin).currSection).2) [] none,
      by simp only [nodeAt]; exact getElem?_append_self _ _, rfl, rfl, rfl⟩

theorem processItemBlock_dup (st : PState) (title subtitle : Str) (body : List Str)
    (origin : Origin) (pid : Nat) (pnode : Node)
    (hdup : lookupD st.itemsByName subtitle = some pid)
    (hpn : nodeAt st pid = some pnode) :
    ∃ st2, processItemBlock st title subtitle body origin =
        (st2, some (.docsgen ⟨title, dupMsg subtitle pnode.origin.file pnode.origin.line⟩)) ∧
      st2.itemsByName = st.itemsByName ∧
      countItems st2 subtitle = countItems st subtitle ∧
      st2.errlog = st.errlog := by
  obtain ⟨hi1, he1, hs1, hc1, hn1⟩ := mkFileNode_invar st origin subtitle
  obtain ⟨hi2, he2, hc2, hn2⟩ :=
    ensureSection_invar (mkFileNode st origin) origin subtitle (mkFileNode st origin).currSection
  simp only [processItemBlock]
  have hl2 : lookupD (ensureSection (mkFileNode st origin) origin
      (mkFileNode st origin).currSection).1.itemsByName subtitle = some pid := by
    rw [hi2, hi1]
    exact hdup
  rw [hl2]
  simp only [processItemReg]
  have hpn2 : nodeAt (ensureSection (mkFileNode st origin) origin
      (mkFileNode st origin).currSection).1 pid = some pnode :=
    hn2 pid pnode (hn1 pid pnode hpn)
  have hpn3 : nodeAt { (ensureSection (mkFileNode st origin) origin
      (mkFileNode st origin).currSection).1 with
        currParent := some (ensureSection (mkFileNode st origin) origin
          (mkFileNode st origin).currSection).2 } pid = some pnode := hpn2
  rw [hpn3]
  refine ⟨_, rfl, ?_, ?_, ?_⟩
  · simpa using (hi2.trans hi1)
  · simpa [countItems] using (hc2.trans hc1)
  · simpa using (he2.trans he1)

theorem processBlockCore_item (st : PState) (title subtitle : Str) (body : List Str)
    (origin : Origin) (meta : Str)
    (htitle : title = sl "Constant" ∨ title = sl "Function" ∨ title = sl "Module" ∨
      title = sl "Function&Module")
    (hstrict : st.strict = false)
    (hlk : lookupD st.headerDefs title = none) :
    processBlockCore st title subtitle body origin meta =
      processItemBlock st title subtitle body origin := by
  rcases htitle with rfl | rfl | rfl | rfl <;>
    simp +decide [processBlockCore, processLookup, processFallback, hstrict, hlk]

/-- C2: Processing a `Constant`/`Function`/`Module`/`Function&Module` header
(strict mode off, title not overridden in the registry):

* with a subtitle not yet in the NameIndex, exactly one new Item node
  carrying that subtitle is created and registered under a fresh id, which
  becomes the current item, and nothing is logged;
* with a subtitle already in the NameIndex owned by a prior node, no Item is
  created, the NameIndex and Item count are unchanged, and the dispatch
  raises the caught `DocsGenException` whose message cites the prior
  declaration's file and line; the handler then appends exactly one FAIL
  entry with that message to the error log. -/
theorem item_duplicate_detection (st : PState) (title subtitle : Str) (body : List Str)
    (origin : Origin) (meta : Str)
    (htitle : title = sl "Constant" ∨ title = sl "Function" ∨ title = sl "Module" ∨
      title = sl "Function&Module")
    (hstrict : st.strict = false)
    (hlk : lookupD st.headerDefs title = none) :
    (lookupD st.itemsByName subtitle = none →
      ∃ st' iid, processBlockCore st title subtitle body origin meta = (st', none) ∧
        st'.errlog = st.errlog ∧
        countItems st' subtitle = countItems st subtitle + 1 ∧
        lookupD st'.itemsByName subtitle = some iid ∧
        st'.currItem = some iid ∧
        ∃ nd, nodeAt st' iid = some nd ∧ nd.kind = BlockKind.Item ∧
          nd.subtitle = subtitle ∧ nd.origin = origin) ∧
    (∀ pid pnode, lookupD st.itemsByName subtitle = some pid →
      nodeAt st pid = some pnode →
      ∃ st2, processBlockCore st title subtitle body origin meta =
          (st2, some (.docsgen ⟨title, dupMsg subtitle pnode.origin.file pnode.origin.line⟩)) ∧
        st2.itemsByName = st.itemsByName ∧
        countItems st2 subtitle = countItems st subtitle ∧
        st2.errlog = st.errlog ∧
        (addEntry st2 origin ⟨title, dupMsg subtitle pnode.origin.file pnode.origin.line⟩).errlog
          = st.errlog ++ [⟨origin.file, origin.line,
              excStr ⟨title, dupMsg subtitle pnode.origin.file pnode.origin.line⟩,
              Severity.fail⟩]) := by
  rw [processBlockCore_item st title subtitle body origin meta htitle hstrict hlk]
  constructor
  · intro hfresh
    exact processItemBlock_fresh st title subtitle body origin hfresh
  · intro pid pnode hdup hpn
    obtain ⟨st2, heq, hi, hc, he⟩ := processItemBlock_dup st title subtitle body origin pid pnode hdup hpn
    exact ⟨st2, heq, hi, hc, he, by simp [addEntry, he]⟩

theorem item_duplicate_detection_witness :
    (∃ st' iid, processBlockCore (startState false) (sl "Function") (sl "foo()") []
        ⟨sl "f.scad", 1⟩ [] = (st', none) ∧
      st'.errlog = (startState false).errlog ∧
      countItems st' (sl "foo()") = countItems (startState false) (sl "foo()") + 1 ∧
      lookupD st'.itemsByName (sl "foo()") = some iid ∧
      st'.currItem = some iid ∧
      ∃ nd, nodeAt st' iid = some nd ∧ nd.kind = BlockKind.Item ∧
        nd.subtitle = sl "foo()" ∧ nd.origin = ⟨sl "f.scad", 1⟩) ∧
    (∃ st2, processBlockCore afterBarState (sl "Function") (sl "bar()") []
        ⟨sl "foo.scad", 9⟩ [] =
        (st2, some (.docsgen ⟨sl "Function",
          dupMsg (sl "bar()") (sl "foo.scad") 2⟩)) ∧
      st2.itemsByName = afterBarState.itemsByName ∧
      countItems st2 (sl "bar()") = countItems afterBarState (sl "bar()") ∧
      st2.errlog = afterBarState.errlog ∧
      (addEntry st2 ⟨sl "foo.scad", 9⟩ ⟨sl "Function",
          dupMsg (sl "bar()") (sl "foo.scad") 2⟩).errlog
        = afterBarState.errlog ++ [⟨sl "foo.scad", 9,
            excStr ⟨sl "Function", dupMsg (sl "bar()") (sl "foo.scad") 2⟩,
            Severity.fail⟩]) := by
  constructor
  · exact (item_duplicate_detection (startState false) (sl "Function") (sl "foo()") []
      ⟨sl "f.scad", 1⟩ [] (Or.inr (Or.inl rfl)) (by rfl) (by rfl)).1 (by rfl)
  · have h := (item_duplicate_detection afterBarState (sl "Function") (sl "bar()") []
      ⟨sl "foo.scad", 9⟩ [] (Or.inr (Or.inl rfl)) (by rfl) (by rfl)).2 2
      (mkNode .Item (sl "Function") (sl "bar()") [] ⟨sl "foo.scad", 2⟩ (some 1) [] none)
      (by rfl) (by rfl)
    simpa using h

/-! ## Alias registration (C4) -/

/-- C4 counterexample: after `foo()` and `bar()` are declared as Items and an
`Alias: foo()` block is processed inside `bar()`, the NameIndex entry for
`foo()` points at the `bar()` Item (id 3) — the prior entry for the `foo()`
Item (id 2) was overwritten in place, with no error logged. -/
theorem alias_clash_overwrites :
    lookupD (finalState (parseLines (startState false) aliasClashUnit
        (sl "foo.scad"))).itemsByName (sl "foo()") = some 3 ∧
      ((nodeAt (finalState (parseLines (startState false) aliasClashUnit
        (sl "foo.scad"))) 3).map Node.subtitle = some (sl "bar()")) ∧
      ((nodeAt (finalState (parseLines (startState false) aliasClashUnit
        (sl "foo.scad"))) 2).map Node.subtitle = some (sl "foo()")) ∧
      (finalState (parseLines (startState false) aliasClashUnit
        (sl "foo.scad"))).errlog = [] :=
  ⟨by rfl, by rfl, by rfl, by rfl⟩

/-- C4 (amended): processing an `Alias` block of an open Item registers every
comma-separated, stripped alias name in the NameIndex as resolving to the
current Item, unconditionally: an existing entry under that name is
overwritten in place, no duplicate-name condition arises, and no error is
logged. -/
theorem alias_overwrites (st : PState) (subtitle : Str) (body : List Str)
    (origin : Origin) (meta : Str) (i p : Nat)
    (hitem : st.currItem = some i)
    (hparent : st.currParent = some p)
    (hkind : kindAt st p = some BlockKind.Item)
    (hstrict : st.strict = false)
    (hlk : lookupD st.headerDefs (sl "Alias") =
      some ⟨true, BlockKind.Label, none, some Cb.alias⟩) :
    ∃ st', processBlockCore st (sl "Alias") subtitle body origin meta = (st', none) ∧
      st'.errlog = st.errlog ∧
      ∀ a ∈ (splitSep (sl ",") subtitle).map stripL, lookupD st'.itemsByName a = some i := by
  have hchain : processBlockCore st (sl "Alias") subtitle body origin meta =
      processRegistry st st.currParent (sl "Alias") subtitle body origin meta
        ⟨true, BlockKind.Label, none, some Cb.alias⟩ := by
    simp +decide [processBlockCore, processLookup, hstrict, hlk]
  rw [hchain]
  simp only [processRegistry]
  have hok : parentOkFor st ⟨true, BlockKind.Label, none, some Cb.alias⟩ = true := by
    simp [parentOkFor, hparent, hkind]
  rw [if_pos hok]
  simp only [true_or, or_true, if_true]
  simp only [runCallback, runAliasCb]
  have hcur : ((addNode st (mkNode BlockKind.Label (sl "Alias") subtitle body origin
      st.currParent [] none)).1).currItem = some i := by
    simp [addNode, hitem]
  rw [hcur]
  simp only [runAliasCbAux]
  obtain ⟨heu, hiu, hcu⟩ := updateNode_invar
    (addNode st (mkNode BlockKind.Label (sl "Alias") subtitle body origin
      st.currParent [] none)).1 i
    (fun n => { n with aliases := n.aliases ++ (splitSep (sl ",") subtitle).map stripL })
  refine ⟨_, rfl, ?_, ?_⟩
  · simpa [addNode] using heu
  · intro a ha
    rw [lookupD_foldl_dictInsert ((splitSep (sl ",") subtitle).map stripL) _ a (Or.inl ha)]

theorem alias_overwrites_witness :
    ∃ st', processBlockCore openItemState (sl "Alias") (sl "baz(), qux()") []
        ⟨sl "f.scad", 2⟩ [] = (st', none) ∧
      st'.errlog = openItemState.errlog ∧
      ∀ a ∈ (splitSep (sl ",") (sl "baz(), qux()")).map stripL,
        lookupD st'.itemsByName a = some 2 :=
  alias_overwrites openItemState (sl "baz(), qux()") [] ⟨sl "f.scad", 2⟩ [] 2 2
    (by rfl) (by rfl) (by rfl) (by rfl) (by rfl)

/-! ## Progress and termination (C10) -/

theorem drop_eq_nil_le : ∀ (l : List Str) (i : Nat), l.drop i = [] → l.length ≤ i := by
  intro l
  induction l with
  | nil => intro i _; simp
  | cons x t ih =>
    intro i h
    cases i with
    | zero => simp at h
    | succ k =>
      rw [List.drop_succ_cons] at h
      have := ih k h
      simp only [List.length_cons]
      omega

theorem getD_of_drop_cons : ∀ (lines : List Str) (i : Nat) (x : Str) (r : List Str),
    lines.drop i = x :: r → lines.getD i [] = x := by
  intro lines
  induction lines with
  | nil => intro i x r h; simp at h
  | cons a t ih =>
    intro i x r h
    cases i with
    | zero => simp at h ⊢; exact h.1
    | succ k =>
      rw [List.drop_succ_cons] at h
      simpa using ih k x r h

theorem drop_succ_of_drop_cons : ∀ (lines : List Str) (i : Nat) (x : Str) (r : List Str),
    lines.drop i = x :: r → lines.drop (i + 1) = r := by
  intro lines
  induction lines with
  | nil => intro i x r h; simp at h
  | cons a t ih =>
    intro i x r h
    cases i with
    | zero => simpa using congrArg List.tail h
    | succ k =>
      rw [List.drop_succ_cons] at h
      rw [show k + 1 + 1 = (k + 1) + 1 from rfl, List.drop_succ_cons]
      exact ih k x r h

theorem skipAux_spec (lines : List Str) : ∀ (rest : List Str) (st : PState) (i : Nat),
    rest = lines.drop i →
    i ≤ (skipAux st rest i).2 ∧
    ((skipAux st rest i).2 < lines.length →
      (matchHeader (lines.getD (skipAux st rest i).2 [])).isSome = true) := by
  intro rest
  induction rest with
  | nil =>
    intro st i hdrop
    simp only [skipAux]
    refine ⟨Nat.le_refl i, fun hlt => ?_⟩
    exact absurd hlt (by have := drop_eq_nil_le lines i hdrop.symm; omega)
  | cons l rest ih =>
    intro st i hdrop
    simp only [skipAux]
    by_cases hm : (matchHeader l).isSome
    · rw [if_pos hm]
      refine ⟨Nat.le_refl i, fun hlt => ?_⟩
      rw [getD_of_drop_cons lines i l rest hdrop.symm]
      exact hm
    · rw [if_neg hm]
      obtain ⟨h1, h2⟩ := ih
        (if st.currItem.isSome ∧ ¬(['/', '/'].isPrefixOf l) then closeItem st else st)
        (i + 1) (drop_succ_of_drop_cons lines i l rest hdrop.symm).symm
      exact ⟨by omega, h2⟩

theorem extractBody_ge (ti : Str) (lines : List Str) (i : Nat) (b : List Str) (j : Nat)
    (h : extractBody ti lines i = .ok (b, j)) : i ≤ j := by
  simp only [extractBody] at h
  cases hd : lines.drop i with
  | nil =>
    rw [hd] at h
    simp only [extractBodyAux, Except.ok.injEq, Prod.mk.injEq] at h
    omega
  | cons l rest =>
    rw [hd] at h
    simp only [extractBodyAux] at h
    by_cases h1 : (['/', '/', ' ', ' ']).isPrefixOf l
    · rw [if_pos h1] at h
      cases hrec : extractAux ti ((l.drop 2).takeWhile pyIsSpace).length rest with
      | error e => rw [hrec] at h; simp [exFirst] at h
      | ok p =>
        rw [hrec] at h
        simp only [exFirst, Except.ok.injEq, Prod.mk.injEq] at h
        omega
    · rw [if_neg h1] at h
      simp only [Except.ok.injEq, Prod.mk.injEq] at h
      omega

theorem parseBlock_progress (st : PState) (lines : List Str) (srcFile : Str) (i : Nat)
    (st' : PState) (j : Nat) (h : parseBlock st lines srcFile i = .ok st' j) :
    i < j ∨ lines.length ≤ j := by
  simp only [parseBlock, skipLines] at h
  obtain ⟨hge, hmatch⟩ := skipAux_spec lines (lines.drop i) st i rfl
  by_cases hs : (skipAux st (lines.drop i) i).2 ≥ lines.length
  · rw [if_pos hs] at h
    injection h with h1 h2
    right
    omega
  · rw [if_neg hs] at h
    have hm := hmatch (by omega)
    cases hmh : matchHeader (lines.getD (skipAux st (lines.drop i) i).2 []) with
    | none => rw [hmh] at hm; simp at hm
    | some tms =>
      rw [hmh] at h
      obtain ⟨title, meta, subtitle⟩ := tms
      simp only [parseBlockHdr] at h
      cases hex : extractBody title lines ((skipAux st (lines.drop i) i).2 + 1) with
      | error e => rw [hex] at h; simp [parseBlockBody] at h
      | ok bj =>
        rw [hex] at h
        obtain ⟨body, j0⟩ := bj
        have hj0 : (skipAux st (lines.drop i) i).2 + 1 ≤ j0 :=
          extractBody_ge title lines _ body j0 hex
        simp only [parseBlockBody] at h
        rcases hpc : processBlockCore (skipAux st (lines.drop i) i).1 title subtitle body
            ⟨srcFile, (skipAux st (lines.drop i) i).2 + 1⟩ meta with ⟨st2, e2⟩
        rw [hpc] at h
        cases e2 with
        | none =>
          simp only [parseBlockFinish, skipLines] at h
          obtain ⟨hq, _⟩ := skipAux_spec lines (lines.drop j0) (closeAfter st2 lines j0) j0 rfl
          injection h with h1 h2
          left
          omega
        | some pe =>
          cases pe with
          | docsgen e =>
            simp only [parseBlockFinish] at h
            injection h with h1 h2
            left
            omega
          | typeErr => simp [parseBlockFinish] at h

theorem parseGo_some (lines : List Str) (srcFile : Str) :
    ∀ (fuel : Nat) (st : PState) (i : Nat), lines.length - i < fuel →
      (parseGo lines srcFile fuel st i).isSome = true := by
  intro fuel
  induction fuel with
  | zero => intro st i h; omega
  | succ f ih =>
    intro st i h
    simp only [parseGo]
    by_cases hi : i ≥ lines.length
    · rw [if_pos hi]
      rfl
    · rw [if_neg hi]
      cases hb : parseBlock st lines srcFile i with
      | raised st2 e => simp [parseGoStep]
      | ok st2 j =>
        simp only [parseGoStep]
        have hp := parseBlock_progress st lines srcFile i st2 j hb
        exact ih st2 j (by omega)

/-- C10: Every normally returning `_parse_block` call advances: the returned
line index is strictly greater than the starting index or at/past the end of
the line list; consequently the fuelled `parse_lines` loop always terminates
within `lines.length + 1` block steps (it never exhausts its fuel). -/
theorem parse_lines_terminates :
    (∀ (st : PState) (lines : List Str) (srcFile : Str) (i j : Nat),
      resIndex (parseBlock st lines srcFile i) = some j → i < j ∨ lines.length ≤ j) ∧
    (∀ (st : PState) (lines : List Str) (srcFile : Str),
      (parseLines st lines srcFile).isSome = true) := by
  constructor
  · intro st lines srcFile i j h
    cases hb : parseBlock st lines srcFile i with
    | ok st2 j2 =>
      rw [hb] at h
      simp only [resIndex, Option.some.injEq] at h
      subst h
      exact parseBlock_progress st lines srcFile i st2 j2 hb
    | raised st2 e =>
      rw [hb] at h
      simp [resIndex] at h
  · intro st lines srcFile
    exact parseGo_some lines srcFile (lines.length + 1) st 0 (by omega)

theorem parse_lines_terminates_witness : 0 < 1 ∨ tinyUnit.length ≤ 1 :=
  parse_lines_terminates.1 (startState false) tinyUnit (sl "t.scad") 0 1 (by rfl)

/-- C1: Contrary to the claim, an under-indented body line is NOT logged as a
FAIL with the scan continuing: the "Body line under-indented" exception is
raised before the dispatch `try` block begins, so it propagates uncaught out
of the top-level parse call, with the error log left empty and the rest of
the unit never scanned. -/
theorem under_indent_uncaught :
    uncaughtUnderIndent (parseLines (startState false) underIndentUnit (sl "foo.scad")) = true := by
  rfl
